import Mathlib

/-!
Verification development for the deep-research-lab workflow execution engine.

The Lean definitions below are a shallow embedding of the TypeScript source:

* `ExecSvc` models `packages/src/execution/services/execution.service.ts`
  together with `execution-storage.service.ts` (in-memory maps become
  association lists with JavaScript `Map` semantics, promises/observables
  become explicit state passing and `Except`, `new Date()` becomes an
  explicit `now : Nat` argument).
* `Registry` models `plugin-registry.service.ts`.
* `StreamSvc` models the per-node timeout wrapper of
  `workflow-stream.service.ts` and `utils/rxjs-operators.ts` in discrete
  time (a processing observable either completes at time `t` with a value
  or never completes).
* `Compiler` models `src/workflow/services/workflow-compiler.service.ts`
  (the DFS of `determineNodeOrder` gets an explicit fuel parameter that is
  large enough to never run out, mirroring the terminating JS recursion).
-/

namespace ExecSvc

/-- Association-list lookup with JavaScript `Map.get` semantics
(first binding of the key wins; a real `Map` has unique keys). -/
def mapGet {α : Type} (k : String) : List (String × α) → Option α
  | [] => none
  | (q, w) :: rest => if q = k then some w else mapGet k rest

/-- Association-list insertion with JavaScript `Map.set` semantics:
replace the binding in place if the key is present, else append. -/
def mapSet {α : Type} (k : String) (v : α) : List (String × α) → List (String × α)
  | [] => [(k, v)]
  | (q, w) :: rest => if q = k then (k, v) :: rest else (q, w) :: mapSet k v rest

/-- Association-list removal with JavaScript `Map.delete` semantics. -/
def mapDelete {α : Type} (k : String) (m : List (String × α)) : List (String × α) :=
  m.filter (fun p => p.1 ≠ k)

/-- Keys of an association list, used to state `Map`-shaped invariants. -/
def mapKeys {α : Type} : List (String × α) → List String
  | [] => []
  | (q, _) :: rest => q :: mapKeys rest

/-- Status enum of `execution.types.ts` (`ExecutionStatus`). -/
inductive ExecutionStatus
  | pending | running | completed | failed | canceled | paused
deriving DecidableEq, Repr

/-- Status enum of `execution.types.ts` (`BranchStatus`). -/
inductive BranchStatus
  | pending | running | completed | failed | canceled | paused
deriving DecidableEq, Repr

/-- Branch event types of `execution.types.ts` (`BranchEventType`). -/
inductive BranchEventType
  | branchStarted | branchCompleted | branchFailed | branchCanceled | branchPaused | branchResumed
deriving DecidableEq, Repr

/-- The fields of `ExecutionBranch` that the lifecycle logic reads or writes
(status bookkeeping; opaque payloads such as `result` are dropped). -/
structure ExecutionBranch where
  id : String
  executionId : String
  name : String
  status : BranchStatus
  createdAt : Nat
  startedAt : Option Nat := none
  finishedAt : Option Nat := none
deriving DecidableEq, Repr

/-- The fields of `ExecutionRecord` that the lifecycle logic reads or writes. -/
structure ExecutionRecord where
  id : String
  status : ExecutionStatus
  createdAt : Nat
  finishedAt : Option Nat := none
  completedBranchCount : Nat := 0
deriving DecidableEq, Repr

/-- The aggregate counters of `ExecutionProgress`.  The counters are `Int`
because the source arithmetic (`progress.activeBranches - 1` etc.) can in
principle drive them below zero. -/
structure ExecutionProgress where
  status : ExecutionStatus
  activeBranches : Int
  completedBranches : Int
  failedBranches : Int
deriving DecidableEq, Repr

/-- The slice of `BranchProgress` held in each branch `progress$` subject. -/
structure BranchProgress where
  branchId : String
  executionId : String
  status : BranchStatus
deriving DecidableEq, Repr

/-- One entry of an execution's `branches` map: the branch record, its
`progress$` value, and the sequence of events pushed to its `events$`. -/
structure BranchEntry where
  branch : ExecutionBranch
  progress : BranchProgress
  events : List BranchEventType
deriving DecidableEq, Repr

/-- One entry of the `activeExecutions` map: record, `progress$` value,
`events$` log (event type strings), and the branch table. -/
structure ExecEntry where
  record : ExecutionRecord
  progress : ExecutionProgress
  events : List String
  branches : List (String × BranchEntry)
deriving DecidableEq, Repr

/-- The in-memory maps of `ExecutionStorageService`. -/
structure Storage where
  executions : List (String × ExecutionRecord)
  branches : List (String × ExecutionBranch)
deriving DecidableEq, Repr

/-- `ExecutionStorageService.saveExecution`. -/
def Storage.saveExecution (st : Storage) (r : ExecutionRecord) : Storage :=
  { st with executions := mapSet r.id r st.executions }

/-- `ExecutionStorageService.updateExecution`: throws (here `none`) when the
record is absent. -/
def Storage.updateExecution (st : Storage) (r : ExecutionRecord) : Option Storage :=
  if (mapGet r.id st.executions).isSome then
    some { st with executions := mapSet r.id r st.executions }
  else none

/-- `ExecutionStorageService.getExecution`. -/
def Storage.getExecution (st : Storage) (id : String) : Option ExecutionRecord :=
  mapGet id st.executions

/-- `ExecutionStorageService.saveBranch` (the redundant sync of the parent
record's embedded branch list is not modelled; the modelled record carries no
embedded branch list). -/
def Storage.saveBranch (st : Storage) (b : ExecutionBranch) : Storage :=
  { st with branches := mapSet b.id b st.branches }

/-- `ExecutionStorageService.updateBranch`: throws (here `none`) when the
branch is absent. -/
def Storage.updateBranch (st : Storage) (b : ExecutionBranch) : Option Storage :=
  if (mapGet b.id st.branches).isSome then
    some { st with branches := mapSet b.id b st.branches }
  else none

/-- `ExecutionStorageService.getBranch`. -/
def Storage.getBranch (st : Storage) (id : String) : Option ExecutionBranch :=
  mapGet id st.branches

/-- The whole mutable state of `ExecutionService`: the active-execution
table plus the storage collaborator. -/
structure ServiceState where
  active : List (String × ExecEntry)
  storage : Storage
deriving DecidableEq, Repr

/-- The structured content of the "not found / not active" errors thrown by
the query surface. -/
inductive LookupError
  | executionNotActive (id : String)
  | branchNotFound (branchId executionId : String)
deriving DecidableEq, Repr

/-- `ExecutionService.getExecutionProgress`: errors unless the execution is
in the active table. -/
def getExecutionProgress (s : ServiceState) (id : String) :
    Except LookupError ExecutionProgress :=
  match mapGet id s.active with
  | none => .error (.executionNotActive id)
  | some e => .ok e.progress

/-- `ExecutionService.getExecutionEvents`: errors unless the execution is in
the active table. -/
def getExecutionEvents (s : ServiceState) (id : String) :
    Except LookupError (List String) :=
  match mapGet id s.active with
  | none => .error (.executionNotActive id)
  | some e => .ok e.events

/-- `ExecutionService.getExecution`: active-table record first, storage
fallback otherwise; never errors. -/
def getExecution (s : ServiceState) (id : String) : Option ExecutionRecord :=
  match mapGet id s.active with
  | some e => some e.record
  | none => s.storage.getExecution id

/-- `ExecutionService.getBranch`: falls back to storage both when the
execution is not active and when the branch is not in the active execution;
never errors. -/
def getBranch (s : ServiceState) (executionId branchId : String) :
    Option ExecutionBranch :=
  match mapGet executionId s.active with
  | none => s.storage.getBranch branchId
  | some e =>
    match mapGet branchId e.branches with
    | none => s.storage.getBranch branchId
    | some be => some be.branch

/-- `ExecutionService.getBranchProgress`: errors when the execution is not
active or the branch is unknown to it. -/
def getBranchProgress (s : ServiceState) (executionId branchId : String) :
    Except LookupError BranchProgress :=
  match mapGet executionId s.active with
  | none => .error (.executionNotActive executionId)
  | some e =>
    match mapGet branchId e.branches with
    | none => .error (.branchNotFound branchId executionId)
    | some be => .ok be.progress

/-- `ExecutionService.getBranchEvents`: errors when the execution is not
active or the branch is unknown to it. -/
def getBranchEvents (s : ServiceState) (executionId branchId : String) :
    Except LookupError (List BranchEventType) :=
  match mapGet executionId s.active with
  | none => .error (.executionNotActive executionId)
  | some e =>
    match mapGet branchId e.branches with
    | none => .error (.branchNotFound branchId executionId)
    | some be => .ok be.events

/-- `ExecutionService.emitBranchEvent`: pushes the event onto the branch's
`events$` when both the execution and the branch are tracked. -/
def emitBranchEvent (s : ServiceState) (executionId branchId : String)
    (type : BranchEventType) : ServiceState :=
  match mapGet executionId s.active with
  | none => s
  | some e =>
    match mapGet branchId e.branches with
    | none => s
    | some be =>
      let be2 : BranchEntry := { be with events := be.events ++ [type] }
      let e2 : ExecEntry := { e with branches := mapSet branchId be2 e.branches }
      { s with active := mapSet executionId e2 s.active }

/-- `ExecutionService.emitExecutionEvent`: pushes the event type onto the
execution's `events$` when the execution is tracked.  (The modelled call
sites pass no `branchId`, so the nested `handleBranchEvent` dispatch of the
source never fires for them.) -/
def emitExecutionEvent (s : ServiceState) (executionId : String) (type : String) :
    ServiceState :=
  match mapGet executionId s.active with
  | none => s
  | some e =>
    { s with active := mapSet executionId { e with events := e.events ++ [type] } s.active }

/-- Helper mirroring in-place mutation of a branch entry inside the live
branch table. -/
def setBranchEntry (s : ServiceState) (executionId branchId : String)
    (be : BranchEntry) : ServiceState :=
  match mapGet executionId s.active with
  | none => s
  | some e =>
    let e2 : ExecEntry := { e with branches := mapSet branchId be e.branches }
    { s with active := mapSet executionId e2 s.active }

/-- A storage `updateBranch` whose failure is logged and swallowed by the
caller (`.catch(err => ...)` in the source). -/
def updateBranchSwallow (s : ServiceState) (b : ExecutionBranch) : ServiceState :=
  match s.storage.updateBranch b with
  | some st => { s with storage := st }
  | none => s

/-- A storage `updateExecution` whose failure is logged and swallowed by the
caller. -/
def updateExecutionSwallow (s : ServiceState) (r : ExecutionRecord) : ServiceState :=
  match s.storage.updateExecution r with
  | some st => { s with storage := st }
  | none => s

/-- `ExecutionService.cancelBranch`: a no-op returning `false` unless the
execution is active, the branch is tracked and currently `running`; then
flips the branch to `canceled`, stamps `finishedAt`, emits
`BRANCH_CANCELED`, persists, and reports the persistence outcome. -/
def cancelBranch (s : ServiceState) (executionId branchId : String) (now : Nat) :
    ServiceState × Bool :=
  match mapGet executionId s.active with
  | none => (s, false)
  | some e =>
    match mapGet branchId e.branches with
    | none => (s, false)
    | some be =>
      if be.branch.status ≠ BranchStatus.running then (s, false)
      else
        let branch := { be.branch with
          status := BranchStatus.canceled, finishedAt := some now }
        let s1 := setBranchEntry s executionId branchId { be with branch := branch }
        let s2 := emitBranchEvent s1 executionId branchId .branchCanceled
        match s2.storage.updateBranch branch with
        | some st => ({ s2 with storage := st }, true)
        | none => (s2, false)

/-- `ExecutionService.cancelExecution` (packages version): marks the record
canceled, cascades `cancelBranch` over every tracked branch, flips the
progress status, emits `execution:cancel`, fires a best-effort storage
update, and resolves `true`. -/
def cancelExecution (s : ServiceState) (id : String) (now : Nat) :
    ServiceState × Bool :=
  match mapGet id s.active with
  | none => (s, false)
  | some e =>
    let record := { e.record with
      status := ExecutionStatus.canceled, finishedAt := some now }
    let s1 : ServiceState :=
      { s with active := mapSet id { e with record := record } s.active }
    let s2 := (mapKeys e.branches).foldl
      (fun acc bid => (cancelBranch acc id bid now).1) s1
    let s3 :=
      match mapGet id s2.active with
      | none => s2
      | some e2 =>
        let e2x : ExecEntry :=
          { e2 with progress := { e2.progress with status := ExecutionStatus.canceled } }
        { s2 with active := mapSet id e2x s2.active }
    let s4 := emitExecutionEvent s3 id "execution:cancel"
    let s5 := updateExecutionSwallow s4 record
    (s5, true)

/-- `BranchOptions` (only the name matters to the modelled logic). -/
structure BranchOptions where
  name : String
deriving Repr

/-- `ExecutionService.createBranch`: rejects when the execution is not
active; otherwise registers a fresh `pending` branch entry (overwriting any
previous entry under that id), saves it, emits `BRANCH_STARTED`, and
increments the execution's `activeBranches` counter. -/
def createBranch (s : ServiceState) (executionId : String) (options : BranchOptions)
    (branchId : String) (now : Nat) :
    ServiceState × Except LookupError ExecutionBranch :=
  match mapGet executionId s.active with
  | none => (s, .error (.executionNotActive executionId))
  | some e =>
    let branch : ExecutionBranch :=
      { id := branchId, executionId := executionId, name := options.name,
        status := BranchStatus.pending, createdAt := now }
    let entry : BranchEntry :=
      { branch := branch,
        progress := { branchId := branchId, executionId := executionId,
                      status := BranchStatus.pending },
        events := [] }
    let e1 : ExecEntry := { e with branches := mapSet branchId entry e.branches }
    let s1 : ServiceState := { s with active := mapSet executionId e1 s.active }
    let s2 : ServiceState := { s1 with storage := s1.storage.saveBranch branch }
    let s3 := emitBranchEvent s2 executionId branchId .branchStarted
    let s4 :=
      match mapGet executionId s3.active with
      | none => s3
      | some e3 =>
        let e3x : ExecEntry :=
          { e3 with progress :=
              { e3.progress with activeBranches := e3.progress.activeBranches + 1 } }
        { s3 with active := mapSet executionId e3x s3.active }
    (s4, .ok branch)

/-- A stream event as consumed by `handleBranchEvent` (the handler
dereferences `event.branchId!`, so the model makes the branch id mandatory). -/
structure StreamEvent where
  executionId : String
  type : String
  branchId : String
  name : Option String := none
deriving DecidableEq, Repr

/-- `ExecutionService.handleBranchEvent`: dispatch on the event type.  A
missing branch entry short-circuits everything except `branch:create`;
`branch:complete` and `branch:failed` update status and the aggregate
counters unconditionally (no terminal-status guard in the source). -/
def handleBranchEvent (s : ServiceState) (ev : StreamEvent) (now : Nat) : ServiceState :=
  match mapGet ev.executionId s.active with
  | none => s
  | some e =>
    let branchData := mapGet ev.branchId e.branches
    if branchData.isNone ∧ ev.type ≠ "branch:create" then s
    else if ev.type = "branch:create" then
      (createBranch s ev.executionId
        { name := ev.name.getD (String.append "Branch " ev.branchId) }
        ev.branchId now).1
    else if ev.type = "branch:start" then
      match branchData with
      | none => s
      | some be =>
        let branch := { be.branch with
          status := BranchStatus.running, startedAt := some now }
        let s1 := setBranchEntry s ev.executionId ev.branchId { be with branch := branch }
        let s2 := updateBranchSwallow s1 branch
        emitBranchEvent s2 ev.executionId ev.branchId .branchStarted
    else if ev.type = "branch:complete" then
      match branchData with
      | none => s
      | some be =>
        let branch := { be.branch with
          status := BranchStatus.completed, finishedAt := some now }
        let s1 := setBranchEntry s ev.executionId ev.branchId { be with branch := branch }
        let s2 := updateBranchSwallow s1 branch
        let s3 := emitBranchEvent s2 ev.executionId ev.branchId .branchCompleted
        match mapGet ev.executionId s3.active with
        | none => s3
        | some e3 =>
          let prog := { e3.progress with
            completedBranches := e3.progress.completedBranches + 1,
            activeBranches := e3.progress.activeBranches - 1 }
          let rec0 := { e3.record with
            completedBranchCount := e3.record.completedBranchCount + 1 }
          let e3x : ExecEntry := { e3 with progress := prog, record := rec0 }
          let s4 : ServiceState :=
            { s3 with active := mapSet ev.executionId e3x s3.active }
          updateExecutionSwallow s4 rec0
    else if ev.type = "branch:failed" then
      match branchData with
      | none => s
      | some be =>
        let branch := { be.branch with
          status := BranchStatus.failed, finishedAt := some now }
        let s1 := setBranchEntry s ev.executionId ev.branchId { be with branch := branch }
        let s2 := updateBranchSwallow s1 branch
        let s3 := emitBranchEvent s2 ev.executionId ev.branchId .branchFailed
        match mapGet ev.executionId s3.active with
        | none => s3
        | some e3 =>
          let prog := { e3.progress with
            failedBranches := e3.progress.failedBranches + 1,
            activeBranches := e3.progress.activeBranches - 1 }
          let e3x : ExecEntry := { e3 with progress := prog }
          { s3 with active := mapSet ev.executionId e3x s3.active }
    else s

/-- The `finalize` callback of `executeWorkflow`: best-effort final storage
update of the record, then eviction from the active table. -/
def finalizeExecution (s : ServiceState) (record : ExecutionRecord) : ServiceState :=
  let s1 := updateExecutionSwallow s record
  { s1 with active := mapDelete record.id s1.active }

/-- Fold `handleBranchEvent` over a sequence of stream events. -/
def runEvents (s : ServiceState) (evs : List StreamEvent) (now : Nat) : ServiceState :=
  evs.foldl (fun acc ev => handleBranchEvent acc ev now) s

/-- Convenience projection: the status of a tracked branch. -/
def branchStatusOf (s : ServiceState) (executionId branchId : String) :
    Option BranchStatus :=
  match mapGet executionId s.active with
  | none => none
  | some e =>
    match mapGet branchId e.branches with
    | none => none
    | some be => some be.branch.status

end ExecSvc

namespace Registry

open ExecSvc (mapGet mapSet)

/-- Required metadata fields of a plugin; the empty string models a
missing/falsy JavaScript value (the source checks `!metadata.id` etc.). -/
structure PluginMetadata where
  id : String
  name : String
  version : String
deriving DecidableEq, Repr

/-- A plugin as seen by the duck-typed checks of `PluginRegistry`.
`nodeType`/`process` are `Option`s because `"nodeType" in plugin` tests
field presence; `process = some b` records whether the present field is
actually a function (`typeof process === "function"`); the schema fields
only matter through their truthiness. -/
structure Plugin where
  metadata : PluginMetadata
  nodeType : Option String
  process : Option Bool
  inputSchema : Bool
  outputSchema : Bool
deriving DecidableEq, Repr

/-- `PluginRegistry.isNodePlugin`: `"nodeType" in plugin && "process" in plugin`. -/
def isNodePlugin (p : Plugin) : Bool :=
  p.nodeType.isSome && p.process.isSome

/-- The two maps held by `PluginRegistry`. -/
structure RegistryState where
  plugins : List (String × Plugin)
  nodePlugins : List (String × Plugin)
deriving DecidableEq, Repr

/-- The `ValidationResult` shape returned by `registerPlugin`. -/
structure ValidationResult where
  valid : Bool
  errors : List String
deriving DecidableEq, Repr

/-- `PluginRegistry.validatePlugin`: accumulates error strings in source
order; each guard mirrors one `if` of the source. -/
def validatePlugin (st : RegistryState) (p : Plugin) : List String :=
  (if p.metadata.id = "" then ["Plugin ID is required"] else []) ++
  (if p.metadata.name = "" then ["Plugin name is required"] else []) ++
  (if p.metadata.version = "" then ["Plugin version is required"] else []) ++
  (if (mapGet p.metadata.id st.plugins).isSome then
      ["Plugin with this ID is already registered"] else []) ++
  (if isNodePlugin p then
    (if p.nodeType.getD "" = "" then ["Node plugin must have a nodeType"] else []) ++
    (if ¬ p.inputSchema then ["Node plugin must have an inputSchema"] else []) ++
    (if ¬ p.outputSchema then ["Node plugin must have an outputSchema"] else []) ++
    (if p.process ≠ some true then ["Node plugin must have a process method"] else []) ++
    (if p.nodeType.getD "" ≠ "" ∧ (mapGet (p.nodeType.getD "") st.nodePlugins).isSome then
        ["Node plugin with this type is already registered"] else [])
  else [])

/-- `PluginRegistry.registerPlugin`: reject on any validation error, else
store by id and (for node-capable plugins) index by `nodeType`. -/
def registerPlugin (st : RegistryState) (p : Plugin) :
    RegistryState × ValidationResult :=
  let errors := validatePlugin st p
  if errors ≠ [] then (st, { valid := false, errors := errors })
  else
    let st1 : RegistryState := { st with plugins := mapSet p.metadata.id p st.plugins }
    let st2 : RegistryState :=
      if isNodePlugin p then
        { st1 with nodePlugins := mapSet (p.nodeType.getD "") p st1.nodePlugins }
      else st1
    (st2, { valid := true, errors := [] })

/-- The rejection condition exactly as the claim enumerates it: metadata
id/name/version missing, id already registered, or — for a structurally
node-capable plugin — nodeType/inputSchema/outputSchema/process missing or
broken, or the nodeType already bound. -/
def RejectCond (st : RegistryState) (p : Plugin) : Prop :=
  p.metadata.id = "" ∨ p.metadata.name = "" ∨ p.metadata.version = "" ∨
  (mapGet p.metadata.id st.plugins).isSome = true ∨
  (isNodePlugin p = true ∧
    (p.nodeType.getD "" = "" ∨ p.inputSchema = false ∨ p.outputSchema = false ∨
      p.process ≠ some true ∨
      (mapGet (p.nodeType.getD "") st.nodePlugins).isSome = true))

instance (st : RegistryState) (p : Plugin) : Decidable (RejectCond st p) := by
  unfold RejectCond
  infer_instance

/-- A well-formed node-capable plugin used as a concrete witness input. -/
def goodPlugin : Plugin :=
  { metadata := { id := "start", name := "Start Node", version := "1.0.0" },
    nodeType := some "start", process := some true,
    inputSchema := true, outputSchema := true }

end Registry

namespace StreamSvc

/-- Discrete-time model of a node-processing observable: `none` never
completes, `some (t, v)` completes at time `t` with value `v`. -/
def ProcOutcome (α : Type) : Type := Option (Nat × α)

/-- The timeout error message built by `withTimeout` in
`utils/rxjs-operators.ts`. -/
def timeoutMessage (ms : Nat) : String :=
  String.append (String.append "Operation timed out after " (toString ms)) "ms"

/-- The `withTimeout` operator: `takeUntil(timer(ms) -> throwError)` mirrors
the source until time `ms` and then errors, so a source completing strictly
before `ms` passes through and anything else becomes the timeout error. -/
def withTimeout {α : Type} (ms : Nat) (source : ProcOutcome α) : Except String α :=
  match source with
  | none => .error (timeoutMessage ms)
  | some (t, v) => if t < ms then .ok v else .error (timeoutMessage ms)

/-- The options destructured by `createNodePipelines`
(`const { timeout: timeoutMs = 30000 } = options`). -/
structure StreamOptions where
  timeout : Option Nat := none
deriving Repr

/-- The effective per-node timeout after the destructuring default. -/
def effectiveTimeout (options : StreamOptions) : Nat :=
  options.timeout.getD 30000

/-- Whether the processor has not completed when the timeout expires. -/
def notDoneBy {α : Type} (ms : Nat) (source : ProcOutcome α) : Prop :=
  match source with
  | none => True
  | some (t, _) => ms ≤ t

instance {α : Type} (ms : Nat) (source : ProcOutcome α) :
    Decidable (notDoneBy ms source) := by
  unfold notDoneBy
  match source with
  | none => infer_instance
  | some (t, _) => infer_instance

/-- The per-item node pipeline of `createNodePipelines`: emit `node:start`,
run the processor wrapped in `withTimeout(timeoutMs)`, report an error via
`node:error` and rethrow it, or emit `node:complete` on success.  Returns
the path result together with the emitted event types in order. -/
def nodePipelineRun {α : Type} (options : StreamOptions) (proc : ProcOutcome α) :
    Except String α × List String :=
  match withTimeout (effectiveTimeout options) proc with
  | .ok v => (.ok v, ["node:start", "node:complete"])
  | .error e => (.error e, ["node:start", "node:error"])

end StreamSvc

namespace Compiler

/-- A workflow node as seen by the compiler (`Node{id, type, config}`;
config is opaque to the compiled control flow and dropped). -/
structure WNode where
  id : String
  type : String
deriving DecidableEq, Repr

/-- A `Connection{from, to}` edge. -/
structure Connection where
  fromId : String
  toId : String
deriving DecidableEq, Repr

/-- A workflow definition: declared nodes and connections. -/
structure Workflow where
  nodes : List WNode
  connections : List Connection
deriving DecidableEq, Repr

/-- Successor list of `nodeId`, as built by the adjacency loop of
`determineNodeOrder` (`graph[conn.from].push(conn.to)` in connection order;
`graph[nodeId] || []` yields `[]` for ids with no outgoing connection). -/
def succs (w : Workflow) (nodeId : String) : List String :=
  (w.connections.filter (fun c => c.fromId = nodeId)).map Connection.toId

/-- The mutable state of the DFS in `determineNodeOrder`: the `visited` set
and the `result` list (`unshift` prepends). -/
structure DfsState where
  visited : List String
  result : List String
deriving DecidableEq, Repr

/-- The recursive `visit` helper of `determineNodeOrder`, with an explicit
fuel parameter standing in for the JS call stack (the fuel used below is
always sufficient, so the zero case is never reached from the entry point). -/
def visit (w : Workflow) : Nat → DfsState → String → DfsState
  | 0, s, _ => s
  | fuel + 1, s, nodeId =>
    if nodeId ∈ s.visited then s
    else
      let s1 : DfsState := { s with visited := nodeId :: s.visited }
      let s2 := (succs w nodeId).foldl (visit w fuel) s1
      { s2 with result := nodeId :: s2.result }

/-- Fuel that dominates the number of distinct visitable ids. -/
def dfsFuel (w : Workflow) : Nat := w.nodes.length + w.connections.length + 1

/-- `WorkflowCompiler.determineNodeOrder`: visit every declared node,
threading the shared visited/result state. -/
def determineNodeOrder (w : Workflow) : List String :=
  (w.nodes.foldl (fun s n => visit w (dfsFuel w) s n.id)
    { visited := [], result := [] }).result

/-- The edge relation induced by the adjacency list. -/
def Edge (w : Workflow) (a b : String) : Prop := b ∈ succs w a

instance (w : Workflow) (a b : String) : Decidable (Edge w a b) := by
  unfold Edge
  infer_instance

/-- Acyclicity: no nonempty path from a node back to itself. -/
def Acyclic (w : Workflow) : Prop := ∀ n, ¬ Relation.TransGen (Edge w) n n

/-- Well-formedness invariant of the data model: every connection endpoint
refers to a declared node id. -/
def WellFormed (w : Workflow) : Prop :=
  ∀ c ∈ w.connections,
    (∃ n ∈ w.nodes, n.id = c.fromId) ∧ (∃ n ∈ w.nodes, n.id = c.toId)

instance (w : Workflow) : Decidable (WellFormed w) := by
  unfold WellFormed
  infer_instance

/-- Every id the DFS can ever visit: declared ids plus connection targets. -/
def univ (w : Workflow) : List String :=
  w.nodes.map WNode.id ++ w.connections.map Connection.toId

/-- Number of visitable ids not yet visited; the DFS recursion measure. -/
def unvisitedCount (w : Workflow) (s : DfsState) : Nat :=
  ((univ w).filter (fun x => x ∉ s.visited)).length

/-- A node plugin as consumed by `createOperatorChain`: only its per-item
`process` transformation matters to the compiled chain (payloads are
abstracted to `Int`). -/
structure NodePlugin where
  process : Int → Int

/-- The information content of the error produced when
`pluginRegistry.getNodePlugin(node.type)` is undefined: the logged message
names the node type and the node id. -/
structure CompileError where
  nodeId : String
  nodeType : String
deriving DecidableEq, Repr

/-- The loop body of `createOperatorChain`: walk `nodeOrder`, skip ids with
no declared node (`continue`), return the error observable at the first
missing plugin (discarding the chain built so far, which — being lazy — has
executed nothing), else append the node's processing stage. -/
def buildChain (w : Workflow) (getNodePlugin : String → Option NodePlugin) :
    List String → List (String × NodePlugin) →
    Except CompileError (List (String × NodePlugin))
  | [], chain => .ok chain
  | nodeId :: rest, chain =>
    match w.nodes.find? (fun n => n.id = nodeId) with
    | none => buildChain w getNodePlugin rest chain
    | some node =>
      match getNodePlugin node.type with
      | none => .error { nodeId := nodeId, nodeType := node.type }
      | some p => buildChain w getNodePlugin rest (chain ++ [(nodeId, p)])

/-- `ExecutableWorkflow`: the node order plus the operator chain, which is
either an error-producing stage or the composed list of node stages. -/
structure ExecutableWorkflow where
  nodeOrder : List String
  operatorChain : Except CompileError (List (String × NodePlugin))

/-- `WorkflowCompiler.compile`. -/
def compile (w : Workflow) (getNodePlugin : String → Option NodePlugin) :
    ExecutableWorkflow :=
  { nodeOrder := determineNodeOrder w,
    operatorChain := buildChain w getNodePlugin (determineNodeOrder w) [] }

/-- Applying the compiled chain to an input: an error-producing chain yields
only the error and invokes no plugin; a healthy chain pipes the input
through every stage in order. -/
def runCompiled (ew : ExecutableWorkflow) (input : Int) : Except CompileError Int :=
  match ew.operatorChain with
  | .error e => .error e
  | .ok chain => .ok (chain.foldl (fun acc st => st.2.process acc) input)

/-- Growth relation between DFS states: visited only gains elements, and
result only gains elements that were unvisited at the start. -/
def DfsLe (s1 s2 : DfsState) : Prop :=
  (∃ u, s2.visited = u ++ s1.visited) ∧
  (∃ t, s2.result = t ++ s1.result ∧ ∀ x ∈ t, x ∉ s1.visited)

/-- The weak DFS invariant relative to a gray set `G`: every finished node
was visited, and every visited node is finished or gray. -/
def InvB (s : DfsState) (G : List String) : Prop :=
  (∀ x ∈ s.result, x ∈ s.visited) ∧
  (∀ x ∈ s.visited, x ∈ s.result ∨ x ∈ G)

/-- The full DFS topological invariant relative to a gray set `G`: the weak
invariant plus closure of the finished set under edges, absence of
backward edges inside the result list, and distinctness. -/
def InvT (w : Workflow) (s : DfsState) (G : List String) : Prop :=
  (∀ x ∈ s.result, x ∈ s.visited) ∧
  (∀ x ∈ s.visited, x ∈ s.result ∨ x ∈ G) ∧
  (∀ y ∈ s.result, ∀ b, Edge w y b → b ∈ s.result) ∧
  s.result.Pairwise (fun x y => ¬ Edge w y x) ∧
  s.result.Nodup

/-- A two-node workflow with one connection, used for concrete witnesses. -/
def wfEx : Workflow :=
  { nodes := [{ id := "a", type := "t1" }, { id := "b", type := "t2" }],
    connections := [{ fromId := "a", toId := "b" }] }

/-- A rank function certifying acyclicity of `wfEx`. -/
def rankEx (x : String) : Nat := if x = "b" then 1 else 0

/-- A one-node workflow whose node type has no registered plugin. -/
def wfMissing : Workflow :=
  { nodes := [{ id := "n1", type := "unregistered-type" }], connections := [] }

end Compiler

namespace ExecSvc

/-- A sample branch in a chosen status, used for concrete instantiations. -/
def sampleBranch (st : BranchStatus) : ExecutionBranch :=
  { id := "b1", executionId := "e1", name := "Main Branch", status := st,
    createdAt := 0, startedAt := some 1 }

/-- A sample branch-table entry in a chosen status. -/
def sampleBranchEntry (st : BranchStatus) : BranchEntry :=
  { branch := sampleBranch st,
    progress := { branchId := "b1", executionId := "e1", status := st },
    events := [] }

/-- A sample execution record. -/
def sampleRecord : ExecutionRecord :=
  { id := "e1", status := ExecutionStatus.running, createdAt := 0 }

/-- A sample active-table entry tracking one branch in a chosen status. -/
def sampleEntry (st : BranchStatus) : ExecEntry :=
  { record := sampleRecord,
    progress := { status := ExecutionStatus.running, activeBranches := 1,
                  completedBranches := 0, failedBranches := 0 },
    events := [],
    branches := [("b1", sampleBranchEntry st)] }

/-- A sample service state with one active execution owning one branch. -/
def sampleState (st : BranchStatus) : ServiceState :=
  { active := [("e1", sampleEntry st)],
    storage := { executions := [("e1", sampleRecord)],
                 branches := [("b1", sampleBranch st)] } }

/-- A sample active-table entry with no branches and zeroed counters. -/
def freshEntry : ExecEntry :=
  { record := sampleRecord,
    progress := { status := ExecutionStatus.running, activeBranches := 0,
                  completedBranches := 0, failedBranches := 0 },
    events := [],
    branches := [] }

/-- A sample service state with one freshly registered execution. -/
def freshState : ServiceState :=
  { active := [("e1", freshEntry)],
    storage := { executions := [("e1", sampleRecord)], branches := [] } }

/-- A duplicated terminal-event sequence: one branch is created and then
receives two `branch:complete` events. -/
def dupCompleteEvents : List StreamEvent :=
  [ { executionId := "e1", type := "branch:create", branchId := "b1" },
    { executionId := "e1", type := "branch:complete", branchId := "b1" },
    { executionId := "e1", type := "branch:complete", branchId := "b1" } ]

/-- A well-behaved lifecycle sequence: the branch is created, started, and
completed exactly once. -/
def goodEvents : List StreamEvent :=
  [ { executionId := "e1", type := "branch:create", branchId := "b1" },
    { executionId := "e1", type := "branch:start", branchId := "b1" },
    { executionId := "e1", type := "branch:complete", branchId := "b1" } ]

/-- The canceled copy of a branch produced by `cancelBranch`: status flipped
to `canceled` and `finishedAt` stamped. -/
def canceledCopy (b : ExecutionBranch) (now : Nat) : ExecutionBranch :=
  { b with status := BranchStatus.canceled, finishedAt := some now }

/-- The canceled copy of a whole branch-table entry: branch canceled and the
`BRANCH_CANCELED` event appended. -/
def canceledEntryCopy (be : BranchEntry) (now : Nat) : BranchEntry :=
  { be with
    branch := canceledCopy be.branch now,
    events := be.events ++ [BranchEventType.branchCanceled] }

/-- The effect of one `cancelBranch` call on the owning execution's
active-table entry: cancel the branch if it is tracked and running,
otherwise leave the entry unchanged. -/
def cancelEntryBranch (e : ExecEntry) (bid : String) (now : Nat) : ExecEntry :=
  match mapGet bid e.branches with
  | none => e
  | some be =>
    if be.branch.status = BranchStatus.running then
      { e with branches := mapSet bid (canceledEntryCopy be now) e.branches }
    else e

/-- The net effect of `cancelExecution` on the execution's active-table
entry: record marked canceled and stamped, the branch cascade applied to
every tracked branch id, progress status flipped, and the cancellation
event appended. -/
def cancelExecutionEntry (e : ExecEntry) (now : Nat) : ExecEntry :=
  let e1 : ExecEntry :=
    { e with record := { e.record with
        status := ExecutionStatus.canceled, finishedAt := some now } }
  let ef := (mapKeys e.branches).foldl (fun acc bid => cancelEntryBranch acc bid now) e1
  { ef with
    progress := { ef.progress with status := ExecutionStatus.canceled },
    events := ef.events ++ ["execution:cancel"] }

/-- Whether a stream event is a branch-creation event. -/
def isCreateEvent (ev : StreamEvent) : Bool := ev.type == "branch:create"

/-- Whether a stream event is a terminal branch event. -/
def isTerminalEvent (ev : StreamEvent) : Bool :=
  ev.type == "branch:complete" || ev.type == "branch:failed"

/-- Number of branch creations performed while handling an event list. -/
def countCreates (evs : List StreamEvent) : Nat :=
  evs.countP (fun ev => isCreateEvent ev)

/-- Number of terminal events for a given branch id in an event list. -/
def terminalCountFor (bid : String) (evs : List StreamEvent) : Nat :=
  evs.countP (fun ev => isTerminalEvent ev && ev.branchId == bid)

/-- Each branch id receives at most one terminal (complete/failed) event in
the sequence. -/
def AtMostOneTerminalEach (evs : List StreamEvent) : Prop :=
  ∀ ev ∈ evs, isTerminalEvent ev = true → terminalCountFor ev.branchId evs ≤ 1

instance (evs : List StreamEvent) : Decidable (AtMostOneTerminalEach evs) := by
  unfold AtMostOneTerminalEach
  infer_instance

/-- The event is one of the four branch lifecycle event types the handler
dispatches on. -/
def IsLifecycleType (ev : StreamEvent) : Prop :=
  ev.type = "branch:create" ∨ ev.type = "branch:start" ∨
  ev.type = "branch:complete" ∨ ev.type = "branch:failed"

instance (ev : StreamEvent) : Decidable (IsLifecycleType ev) := by
  unfold IsLifecycleType
  infer_instance

end ExecSvc

namespace ExecSvc

theorem mapGet_mapSet_self {α : Type} (k : String) (v : α) (m : List (String × α)) :
    mapGet k (mapSet k v m) = some v := by
  induction m with
  | nil => simp [mapGet, mapSet]
  | cons p rest ih =>
    obtain ⟨q, w⟩ := p
    by_cases h : q = k <;> simp [mapGet, mapSet, h, ih]

theorem mapGet_mapSet_ne {α : Type} (k q : String) (v : α) (m : List (String × α))
    (h : q ≠ k) : mapGet q (mapSet k v m) = mapGet q m := by
  induction m with
  | nil => simp [mapGet, mapSet, Ne.symm h]
  | cons p rest ih =>
    obtain ⟨r, w⟩ := p
    by_cases hr : r = k
    · subst hr
      simp [mapGet, mapSet, h, Ne.symm h]
    · simp [mapGet, mapSet, hr, ih]

theorem mapGet_mapDelete_self {α : Type} (k : String) (m : List (String × α)) :
    mapGet k (mapDelete k m) = none := by
  induction m with
  | nil => simp [mapGet, mapDelete]
  | cons p rest ih =>
    obtain ⟨q, w⟩ := p
    by_cases h : q = k <;> simp [mapGet, mapDelete, h] at ih ⊢ <;> simp [ih]

theorem mapKeys_mapSet_of_mem {α : Type} (k : String) (v : α) (m : List (String × α))
    (h : k ∈ mapKeys m) : mapKeys (mapSet k v m) = mapKeys m := by
  induction m with
  | nil => simp [mapKeys] at h
  | cons p rest ih =>
    obtain ⟨q, w⟩ := p
    by_cases hq : q = k
    · simp [mapKeys, mapSet, hq]
    · simp [mapKeys] at h
      rcases h with h | h
      · exact absurd h.symm hq
      · simp [mapKeys, mapSet, hq, ih h]

theorem mem_mapKeys_mapSet {α : Type} (k q : String) (v : α) (m : List (String × α)) :
    q ∈ mapKeys (mapSet k v m) ↔ q ∈ mapKeys m ∨ q = k := by
  induction m with
  | nil => simp [mapKeys, mapSet, eq_comm]
  | cons p rest ih =>
    obtain ⟨r, w⟩ := p
    by_cases hr : r = k
    · subst hr
      simp [mapKeys, mapSet]
      tauto
    · simp [mapKeys, mapSet, hr, ih]
      tauto

theorem mapGet_isSome_of_mem_keys {α : Type} (k : String) (m : List (String × α))
    (h : k ∈ mapKeys m) : (mapGet k m).isSome = true := by
  induction m with
  | nil => simp [mapKeys] at h
  | cons p rest ih =>
    obtain ⟨q, w⟩ := p
    by_cases hq : q = k
    · simp [mapGet, hq]
    · simp [mapKeys] at h
      rcases h with h | h
      · exact absurd h.symm hq
      · simp [mapGet, hq, ih h]

theorem mem_keys_of_mapGet_isSome {α : Type} (k : String) (m : List (String × α))
    (h : (mapGet k m).isSome = true) : k ∈ mapKeys m := by
  induction m with
  | nil => simp [mapGet] at h
  | cons p rest ih =>
    obtain ⟨q, w⟩ := p
    by_cases hq : q = k
    · simp [mapKeys, hq]
    · simp [mapGet, hq] at h
      simp [mapKeys]
      exact Or.inr (ih h)

end ExecSvc

/-- C5: after an execution is finalized (final best-effort persistence and
eviction from the active table), `getExecutionProgress` and
`getExecutionEvents` on its id fail with the not-found/not-active error,
while `getExecution` still returns the record via the storage fallback. -/
theorem C5_eviction_queries (s : ExecSvc.ServiceState) (record : ExecSvc.ExecutionRecord)
    (h : (ExecSvc.mapGet record.id s.storage.executions).isSome = true) :
    ExecSvc.getExecutionProgress (ExecSvc.finalizeExecution s record) record.id
        = Except.error (ExecSvc.LookupError.executionNotActive record.id) ∧
    ExecSvc.getExecutionEvents (ExecSvc.finalizeExecution s record) record.id
        = Except.error (ExecSvc.LookupError.executionNotActive record.id) ∧
    ExecSvc.getExecution (ExecSvc.finalizeExecution s record) record.id = some record := by
  refine ⟨?_, ?_, ?_⟩ <;>
    simp [ExecSvc.finalizeExecution, ExecSvc.updateExecutionSwallow,
      ExecSvc.Storage.updateExecution, h, ExecSvc.getExecutionProgress,
      ExecSvc.getExecutionEvents, ExecSvc.getExecution, ExecSvc.Storage.getExecution,
      ExecSvc.mapGet_mapDelete_self, ExecSvc.mapGet_mapSet_self]

/-- Witness for C5 at a concrete finalized execution. -/
theorem C5_eviction_queries_witness :
    (ExecSvc.mapGet ExecSvc.sampleRecord.id
        (ExecSvc.sampleState ExecSvc.BranchStatus.running).storage.executions).isSome = true ∧
    ExecSvc.getExecutionProgress
        (ExecSvc.finalizeExecution (ExecSvc.sampleState ExecSvc.BranchStatus.running)
          ExecSvc.sampleRecord) ExecSvc.sampleRecord.id
        = Except.error (ExecSvc.LookupError.executionNotActive ExecSvc.sampleRecord.id) ∧
    ExecSvc.getExecution
        (ExecSvc.finalizeExecution (ExecSvc.sampleState ExecSvc.BranchStatus.running)
          ExecSvc.sampleRecord) ExecSvc.sampleRecord.id = some ExecSvc.sampleRecord :=
  ⟨by decide,
    (C5_eviction_queries (ExecSvc.sampleState ExecSvc.BranchStatus.running)
      ExecSvc.sampleRecord (by decide)).1,
    (C5_eviction_queries (ExecSvc.sampleState ExecSvc.BranchStatus.running)
      ExecSvc.sampleRecord (by decide)).2.2⟩

/-- C10: `getBranch` never rejects — when the execution is not active, or
the branch is unknown to the active execution, it resolves with the storage
collaborator's answer (stored branch or null) — whereas `getBranchProgress`
and `getBranchEvents` fail with an error in exactly those cases. -/
theorem C10_getBranch_fallback (s : ExecSvc.ServiceState) (eid bid : String) :
    (ExecSvc.mapGet eid s.active = none →
      ExecSvc.getBranch s eid bid = s.storage.getBranch bid ∧
      ExecSvc.getBranchProgress s eid bid
          = Except.error (ExecSvc.LookupError.executionNotActive eid) ∧
      ExecSvc.getBranchEvents s eid bid
          = Except.error (ExecSvc.LookupError.executionNotActive eid)) ∧
    (∀ e, ExecSvc.mapGet eid s.active = some e →
      ExecSvc.mapGet bid e.branches = none →
      ExecSvc.getBranch s eid bid = s.storage.getBranch bid ∧
      ExecSvc.getBranchProgress s eid bid
          = Except.error (ExecSvc.LookupError.branchNotFound bid eid) ∧
      ExecSvc.getBranchEvents s eid bid
          = Except.error (ExecSvc.LookupError.branchNotFound bid eid)) := by
  constructor
  · intro h
    refine ⟨?_, ?_, ?_⟩ <;>
      simp [ExecSvc.getBranch, ExecSvc.getBranchProgress, ExecSvc.getBranchEvents, h]
  · intro e he hb
    refine ⟨?_, ?_, ?_⟩ <;>
      simp [ExecSvc.getBranch, ExecSvc.getBranchProgress, ExecSvc.getBranchEvents, he, hb]

/-- Witness for C10 at a concrete inactive execution id. -/
theorem C10_getBranch_fallback_witness :
    ExecSvc.mapGet "missing" (ExecSvc.sampleState ExecSvc.BranchStatus.running).active
        = none ∧
    ExecSvc.getBranch (ExecSvc.sampleState ExecSvc.BranchStatus.running) "missing" "b1"
        = (ExecSvc.sampleState ExecSvc.BranchStatus.running).storage.getBranch "b1" ∧
    ExecSvc.getBranchProgress (ExecSvc.sampleState ExecSvc.BranchStatus.running)
        "missing" "b1"
        = Except.error (ExecSvc.LookupError.executionNotActive "missing") :=
  ⟨by decide,
    ((C10_getBranch_fallback (ExecSvc.sampleState ExecSvc.BranchStatus.running)
      "missing" "b1").1 (by decide)).1,
    ((C10_getBranch_fallback (ExecSvc.sampleState ExecSvc.BranchStatus.running)
      "missing" "b1").1 (by decide)).2.1⟩

/-- C9: each node's per-item processing is wrapped in a timeout defaulting
to 30000 ms when the caller supplies none; a processor that has not
completed when the timeout expires makes that path fail with the timeout
error, which is reported via a `node:error` event and propagates as the
stream error of the path. -/
theorem C9_node_timeout (options : StreamSvc.StreamOptions)
    (proc : StreamSvc.ProcOutcome Int) :
    (options.timeout = none → StreamSvc.effectiveTimeout options = 30000) ∧
    (StreamSvc.notDoneBy (StreamSvc.effectiveTimeout options) proc →
      StreamSvc.nodePipelineRun options proc =
        (Except.error (StreamSvc.timeoutMessage (StreamSvc.effectiveTimeout options)),
          ["node:start", "node:error"])) := by
  constructor
  · intro h
    simp [StreamSvc.effectiveTimeout, h]
  · intro h
    match hp : proc with
    | none => simp [StreamSvc.nodePipelineRun, StreamSvc.withTimeout]
    | some (t, v) =>
      have ht : StreamSvc.effectiveTimeout options ≤ t := by
        simpa [StreamSvc.notDoneBy, hp] using h
      simp [StreamSvc.nodePipelineRun, StreamSvc.withTimeout, Nat.not_lt.mpr ht]

/-- Witness for C9: no caller-supplied timeout and a never-completing
processor. -/
theorem C9_node_timeout_witness :
    StreamSvc.effectiveTimeout { timeout := none } = 30000 ∧
    StreamSvc.nodePipelineRun { timeout := none } (none : StreamSvc.ProcOutcome Int) =
      (Except.error (StreamSvc.timeoutMessage 30000), ["node:start", "node:error"]) :=
  ⟨(C9_node_timeout { timeout := none } (none : StreamSvc.ProcOutcome Int)).1 rfl,
    (C9_node_timeout { timeout := none } (none : StreamSvc.ProcOutcome Int)).2
      (by constructor)⟩


/-- C7: `cancelBranch` is a no-op resolving `false` (state, and in
particular the branch's status and `finishedAt`, unchanged) unless the
branch is currently running; for a running branch it sets the status to
canceled, stamps `finishedAt`, appends a `BRANCH_CANCELED` event to the
branch's event stream, persists the canceled branch, and resolves `true`. -/
theorem C7_cancelBranch_spec (s : ExecSvc.ServiceState) (eid bid : String) (now : Nat)
    (e : ExecSvc.ExecEntry) (be : ExecSvc.BranchEntry)
    (he : ExecSvc.mapGet eid s.active = some e)
    (hb : ExecSvc.mapGet bid e.branches = some be) :
    (be.branch.status ≠ ExecSvc.BranchStatus.running →
      ExecSvc.cancelBranch s eid bid now = (s, false)) ∧
    (be.branch.status = ExecSvc.BranchStatus.running →
      (ExecSvc.mapGet be.branch.id s.storage.branches).isSome = true →
      ∃ s2 e2 be2, ExecSvc.cancelBranch s eid bid now = (s2, true) ∧
        ExecSvc.mapGet eid s2.active = some e2 ∧
        ExecSvc.mapGet bid e2.branches = some be2 ∧
        be2.branch = ExecSvc.canceledCopy be.branch now ∧
        be2.events = be.events ++ [ExecSvc.BranchEventType.branchCanceled] ∧
        ExecSvc.mapGet be.branch.id s2.storage.branches
          = some (ExecSvc.canceledCopy be.branch now)) := by
  constructor
  · intro hne
    simp [ExecSvc.cancelBranch, he, hb, hne]
  · intro hrun hst
    simp only [ExecSvc.cancelBranch, he, hb, hrun, ne_eq, not_true_eq_false, if_false,
      ExecSvc.setBranchEntry, ExecSvc.emitBranchEvent, ExecSvc.mapGet_mapSet_self,
      ExecSvc.Storage.updateBranch, ExecSvc.canceledCopy, hst, if_true]
    exact ⟨_, _, _, rfl, ExecSvc.mapGet_mapSet_self _ _ _,
      ExecSvc.mapGet_mapSet_self _ _ _, rfl, rfl, ExecSvc.mapGet_mapSet_self _ _ _⟩

/-- Witness for C7 at a concrete running branch. -/
theorem C7_cancelBranch_spec_witness :
    ((ExecSvc.sampleBranchEntry ExecSvc.BranchStatus.running).branch.status
        = ExecSvc.BranchStatus.running) ∧
    ∃ s2 e2 be2,
      ExecSvc.cancelBranch (ExecSvc.sampleState ExecSvc.BranchStatus.running)
          "e1" "b1" 5 = (s2, true) ∧
      ExecSvc.mapGet "e1" s2.active = some e2 ∧
      ExecSvc.mapGet "b1" e2.branches = some be2 ∧
      be2.branch = ExecSvc.canceledCopy
          (ExecSvc.sampleBranchEntry ExecSvc.BranchStatus.running).branch 5 ∧
      be2.events = (ExecSvc.sampleBranchEntry ExecSvc.BranchStatus.running).events
          ++ [ExecSvc.BranchEventType.branchCanceled] ∧
      ExecSvc.mapGet (ExecSvc.sampleBranchEntry ExecSvc.BranchStatus.running).branch.id
          s2.storage.branches
        = some (ExecSvc.canceledCopy
            (ExecSvc.sampleBranchEntry ExecSvc.BranchStatus.running).branch 5) :=
  ⟨rfl,
    (C7_cancelBranch_spec (ExecSvc.sampleState ExecSvc.BranchStatus.running)
        "e1" "b1" 5 (ExecSvc.sampleEntry ExecSvc.BranchStatus.running)
        (ExecSvc.sampleBranchEntry ExecSvc.BranchStatus.running)
        (by decide) (by decide)).2 rfl (by decide)⟩

namespace Registry

theorem validatePlugin_eq_nil_iff (st : RegistryState) (p : Plugin) :
    validatePlugin st p = [] ↔ ¬ RejectCond st p := by
  unfold validatePlugin RejectCond
  by_cases h1 : p.metadata.id = "" <;>
    by_cases h2 : p.metadata.name = "" <;>
      by_cases h3 : p.metadata.version = "" <;>
        by_cases h4 : (ExecSvc.mapGet p.metadata.id st.plugins).isSome = true <;>
          by_cases h5 : isNodePlugin p = true <;>
            by_cases h6 : p.nodeType.getD "" = "" <;>
              simp [h1, h2, h3, h4, h5, h6, List.append_eq_nil]

end Registry

open Registry in
/-- C8: `registerPlugin` returns an invalid result with a non-empty error
list exactly under the claim's rejection conditions; otherwise it returns
`{valid := true, errors := []}`, stores the plugin under its metadata id,
indexes it by `nodeType` when it is node-capable, and leaves the nodeType
index untouched when it is not. -/
theorem C8_registerPlugin_spec (st : RegistryState) (p : Plugin) :
    (((registerPlugin st p).2.valid = false ∧ (registerPlugin st p).2.errors ≠ [])
        ↔ RejectCond st p) ∧
    (¬ RejectCond st p →
      (registerPlugin st p).2 = { valid := true, errors := [] } ∧
      ExecSvc.mapGet p.metadata.id (registerPlugin st p).1.plugins = some p ∧
      (isNodePlugin p = true →
        ExecSvc.mapGet (p.nodeType.getD "") (registerPlugin st p).1.nodePlugins
          = some p) ∧
      (isNodePlugin p = false → (registerPlugin st p).1.nodePlugins = st.nodePlugins)) := by
  constructor
  · constructor
    · rintro ⟨hvalid, hne⟩
      by_contra hr
      have hv : validatePlugin st p = [] := (validatePlugin_eq_nil_iff st p).mpr hr
      simp [registerPlugin, hv] at hne
    · intro hr
      have hne : validatePlugin st p ≠ [] := by
        intro h
        exact (validatePlugin_eq_nil_iff st p).mp h hr
      constructor
      · simp [registerPlugin, hne]
      · simp [registerPlugin, hne]
  · intro hr
    have hv : validatePlugin st p = [] := (validatePlugin_eq_nil_iff st p).mpr hr
    refine ⟨?_, ?_, ?_, ?_⟩ <;>
      by_cases h5 : isNodePlugin p = true <;>
        simp [registerPlugin, hv, h5, ExecSvc.mapGet_mapSet_self]

/-- Witness for C8: registering a well-formed node plugin into an empty
registry succeeds and indexes it both by id and by nodeType. -/
theorem C8_registerPlugin_spec_witness :
    ¬ Registry.RejectCond { plugins := [], nodePlugins := [] } Registry.goodPlugin ∧
    (Registry.registerPlugin { plugins := [], nodePlugins := [] }
        Registry.goodPlugin).2 = { valid := true, errors := [] } ∧
    ExecSvc.mapGet Registry.goodPlugin.metadata.id
        (Registry.registerPlugin { plugins := [], nodePlugins := [] }
          Registry.goodPlugin).1.plugins = some Registry.goodPlugin :=
  ⟨by decide,
    ((C8_registerPlugin_spec { plugins := [], nodePlugins := [] }
        Registry.goodPlugin).2 (by decide)).1,
    ((C8_registerPlugin_spec { plugins := [], nodePlugins := [] }
        Registry.goodPlugin).2 (by decide)).2.1⟩

/-- C1: the code violates the claimed terminal-status stickiness.  At a
concrete state with one running branch, `cancelBranch` sets the branch to
`canceled`, and a subsequently handled `branch:complete` event for the same
branch id flips the status to `completed` — `handleBranchEvent` has no
guard on an already-terminal status. -/
theorem C1_late_complete_resurrects_canceled_branch :
    ExecSvc.branchStatusOf
        ((ExecSvc.cancelBranch (ExecSvc.sampleState ExecSvc.BranchStatus.running)
          "e1" "b1" 5).1) "e1" "b1"
      = some ExecSvc.BranchStatus.canceled ∧
    ExecSvc.branchStatusOf
        (ExecSvc.handleBranchEvent
          ((ExecSvc.cancelBranch (ExecSvc.sampleState ExecSvc.BranchStatus.running)
            "e1" "b1" 5).1)
          { executionId := "e1", type := "branch:complete", branchId := "b1" } 9)
        "e1" "b1"
      = some ExecSvc.BranchStatus.completed := by
  decide

namespace ExecSvc

theorem mapSet_mapSet_self {α : Type} (k : String) (v1 v2 : α) (m : List (String × α)) :
    mapSet k v2 (mapSet k v1 m) = mapSet k v2 m := by
  induction m with
  | nil => simp [mapSet]
  | cons p rest ih =>
    obtain ⟨q, w⟩ := p
    by_cases h : q = k <;> simp [mapSet, h, ih]

theorem updateExecutionSwallow_active (s : ServiceState) (r : ExecutionRecord) :
    (updateExecutionSwallow s r).active = s.active := by
  unfold updateExecutionSwallow
  cases s.storage.updateExecution r <;> rfl

theorem cancelEntryBranch_record (e : ExecEntry) (b : String) (now : Nat) :
    (cancelEntryBranch e b now).record = e.record := by
  unfold cancelEntryBranch
  cases mapGet b e.branches with
  | none => rfl
  | some be => by_cases h : be.branch.status = BranchStatus.running <;> simp [h]

theorem cancelEntryBranch_progress (e : ExecEntry) (b : String) (now : Nat) :
    (cancelEntryBranch e b now).progress = e.progress := by
  unfold cancelEntryBranch
  cases mapGet b e.branches with
  | none => rfl
  | some be => by_cases h : be.branch.status = BranchStatus.running <;> simp [h]

theorem cancelEntryBranch_events (e : ExecEntry) (b : String) (now : Nat) :
    (cancelEntryBranch e b now).events = e.events := by
  unfold cancelEntryBranch
  cases mapGet b e.branches with
  | none => rfl
  | some be => by_cases h : be.branch.status = BranchStatus.running <;> simp [h]

theorem cancelBranch_fst_entry (s : ServiceState) (eid bid : String) (now : Nat)
    (e : ExecEntry) (he : mapGet eid s.active = some e) :
    mapGet eid ((cancelBranch s eid bid now).1).active
      = some (cancelEntryBranch e bid now) := by
  cases hb : mapGet bid e.branches with
  | none => simp [cancelBranch, he, hb, cancelEntryBranch]
  | some be =>
    by_cases hrun : be.branch.status = BranchStatus.running
    · simp only [cancelBranch, he, hb, hrun, ne_eq, not_true_eq_false, if_false,
        setBranchEntry, emitBranchEvent, mapGet_mapSet_self, Storage.updateBranch]
      by_cases hc : (mapGet be.branch.id s.storage.branches).isSome = true <;>
        simp [hc, cancelEntryBranch, hb, hrun, canceledEntryCopy, canceledCopy,
          mapGet_mapSet_self, mapSet_mapSet_self]
    · simp [cancelBranch, he, hb, hrun, cancelEntryBranch]

theorem cascade_fold_entry (eid : String) (now : Nat) (bids : List String)
    (s : ServiceState) (e : ExecEntry) (he : mapGet eid s.active = some e) :
    mapGet eid ((bids.foldl (fun acc bid => (cancelBranch acc eid bid now).1) s).active)
      = some (bids.foldl (fun acc bid => cancelEntryBranch acc bid now) e) := by
  induction bids generalizing s e with
  | nil => simpa using he
  | cons b rest ih =>
    simp only [List.foldl_cons]
    exact ih _ _ (cancelBranch_fst_entry s eid b now e he)

theorem cancelEntry_fold_props (now : Nat) (bids : List String) (e : ExecEntry) :
    (bids.foldl (fun acc bid => cancelEntryBranch acc bid now) e).record = e.record ∧
    (bids.foldl (fun acc bid => cancelEntryBranch acc bid now) e).progress = e.progress ∧
    (bids.foldl (fun acc bid => cancelEntryBranch acc bid now) e).events = e.events ∧
    ∀ q be, mapGet q e.branches = some be →
      ∃ be2, mapGet q (bids.foldl (fun acc bid => cancelEntryBranch acc bid now) e).branches
          = some be2 ∧
        (be.branch.status = BranchStatus.running → q ∈ bids →
          be2 = canceledEntryCopy be now) ∧
        (be.branch.status = BranchStatus.running → q ∉ bids → be2 = be) ∧
        (be.branch.status ≠ BranchStatus.running → be2 = be) := by
  induction bids generalizing e with
  | nil =>
    refine ⟨rfl, rfl, rfl, ?_⟩
    intro q be hq
    exact ⟨be, hq, fun _ h => absurd h (List.not_mem_nil q), fun _ _ => rfl, fun _ => rfl⟩
  | cons b rest ih =>
    simp only [List.foldl_cons]
    obtain ⟨ihr, ihp, ihe, ihb⟩ := ih (cancelEntryBranch e b now)
    refine ⟨by rw [ihr, cancelEntryBranch_record],
      by rw [ihp, cancelEntryBranch_progress],
      by rw [ihe, cancelEntryBranch_events], ?_⟩
    intro q be hq
    by_cases hqb : q = b
    · subst hqb
      by_cases hrun : be.branch.status = BranchStatus.running
      · have h1 : mapGet q (cancelEntryBranch e q now).branches
            = some (canceledEntryCopy be now) := by
          simp [cancelEntryBranch, hq, hrun, mapGet_mapSet_self]
        obtain ⟨be2, hbe2, _, _, hnot⟩ := ihb q (canceledEntryCopy be now) h1
        have hterm : (canceledEntryCopy be now).branch.status ≠ BranchStatus.running := by
          simp [canceledEntryCopy, canceledCopy]
        refine ⟨be2, hbe2, fun _ _ => ?_, fun _ hmem => ?_, fun hn => absurd hrun hn⟩
        · rw [hnot hterm]
        · exact absurd (List.mem_cons_self q rest) hmem
      · have h1 : mapGet q (cancelEntryBranch e q now).branches = some be := by
          simp [cancelEntryBranch, hq, hrun]
        obtain ⟨be2, hbe2, _, _, hnot⟩ := ihb q be h1
        exact ⟨be2, hbe2, fun hr => absurd hr hrun, fun hr => absurd hr hrun,
          fun _ => hnot hrun⟩
    · have h1 : mapGet q (cancelEntryBranch e b now).branches = some be := by
        unfold cancelEntryBranch
        cases hbb : mapGet b e.branches with
        | none => exact hq
        | some beb =>
          by_cases hr : beb.branch.status = BranchStatus.running
          · simp only [hr, if_true]
            rw [mapGet_mapSet_ne _ _ _ _ hqb]
            exact hq
          · simp only [hr, if_false]
            exact hq
      obtain ⟨be2, hbe2, hcanc, hkeep, hnot⟩ := ihb q be h1
      refine ⟨be2, hbe2, ?_, ?_, hnot⟩
      · intro hr hmem
        rcases List.mem_cons.mp hmem with h | h
        · exact absurd h hqb
        · exact hcanc hr h
      · intro hr hmem
        exact hkeep hr (fun h => hmem (List.mem_cons_of_mem b h))

end ExecSvc

namespace ExecSvc

theorem cancelExecution_snd (s : ServiceState) (eid : String) (now : Nat)
    (e : ExecEntry) (he : mapGet eid s.active = some e) :
    (cancelExecution s eid now).2 = true := by
  simp [cancelExecution, he]

theorem cancelExecution_fst_entry (s : ServiceState) (eid : String) (now : Nat)
    (e : ExecEntry) (he : mapGet eid s.active = some e) :
    mapGet eid ((cancelExecution s eid now).1).active
      = some (cancelExecutionEntry e now) := by
  simp only [cancelExecution, he]
  rw [updateExecutionSwallow_active]
  rw [cascade_fold_entry eid now (mapKeys e.branches) _ _ (mapGet_mapSet_self _ _ _)]
  simp [emitExecutionEvent, mapGet_mapSet_self, cancelExecutionEntry]

end ExecSvc

/-- C3 counterexample: at a concrete active execution with one running
branch and `activeBranches = 1`, `cancelExecution` resolves `true` and
cancels the branch, but the aggregate `activeBranches` counter stays at 1 —
it is not zero as the claim states, because neither `cancelExecution` nor
`cancelBranch` ever decrements it. -/
theorem C3_counterexample_activeBranches_not_zero :
    (ExecSvc.cancelExecution (ExecSvc.sampleState ExecSvc.BranchStatus.running)
        "e1" 5).2 = true ∧
    ExecSvc.branchStatusOf
        ((ExecSvc.cancelExecution (ExecSvc.sampleState ExecSvc.BranchStatus.running)
          "e1" 5).1) "e1" "b1" = some ExecSvc.BranchStatus.canceled ∧
    Option.map (fun e => e.progress.activeBranches)
        (ExecSvc.mapGet "e1"
          ((ExecSvc.cancelExecution (ExecSvc.sampleState ExecSvc.BranchStatus.running)
            "e1" 5).1).active) = some 1 ∧
    Option.map (fun e => e.progress.activeBranches)
        (ExecSvc.mapGet "e1"
          ((ExecSvc.cancelExecution (ExecSvc.sampleState ExecSvc.BranchStatus.running)
            "e1" 5).1).active) ≠ some 0 := by
  refine ⟨by decide, by decide, by decide, by decide⟩

/-- C3 (amended): for an active execution, `cancelExecution` resolves
`true`, marks the execution record and its progress status canceled, flips
every tracked running branch to canceled while leaving every branch not in
`running` (in particular every already-terminal branch) untouched — but the
aggregate `activeBranches` counter is left unchanged rather than reset to
zero (the completed/failed counters are likewise unchanged). -/
theorem C3_amended_cancellation_cascade (s : ExecSvc.ServiceState) (eid : String)
    (now : Nat) (e : ExecSvc.ExecEntry)
    (he : ExecSvc.mapGet eid s.active = some e) :
    (ExecSvc.cancelExecution s eid now).2 = true ∧
    ∃ e2, ExecSvc.mapGet eid ((ExecSvc.cancelExecution s eid now).1).active = some e2 ∧
      e2.record.status = ExecSvc.ExecutionStatus.canceled ∧
      e2.record.finishedAt = some now ∧
      e2.progress.status = ExecSvc.ExecutionStatus.canceled ∧
      e2.progress.activeBranches = e.progress.activeBranches ∧
      e2.progress.completedBranches = e.progress.completedBranches ∧
      e2.progress.failedBranches = e.progress.failedBranches ∧
      ∀ bid be, ExecSvc.mapGet bid e.branches = some be →
        ∃ be2, ExecSvc.mapGet bid e2.branches = some be2 ∧
          (be.branch.status = ExecSvc.BranchStatus.running →
            be2.branch.status = ExecSvc.BranchStatus.canceled) ∧
          (be.branch.status ≠ ExecSvc.BranchStatus.running → be2 = be) := by
  refine ⟨ExecSvc.cancelExecution_snd s eid now e he, ExecSvc.cancelExecutionEntry e now,
    ExecSvc.cancelExecution_fst_entry s eid now e he, ?_⟩
  have hprops := ExecSvc.cancelEntry_fold_props now (ExecSvc.mapKeys e.branches)
    ({ e with record := { e.record with
        status := ExecSvc.ExecutionStatus.canceled, finishedAt := some now } })
  obtain ⟨hr, hp, hev, hbr⟩ := hprops
  refine ⟨?_, ?_, ?_, ?_, ?_, ?_, ?_⟩
  · simp [ExecSvc.cancelExecutionEntry, hr]
  · simp [ExecSvc.cancelExecutionEntry, hr]
  · simp [ExecSvc.cancelExecutionEntry]
  · simp [ExecSvc.cancelExecutionEntry, hp]
  · simp [ExecSvc.cancelExecutionEntry, hp]
  · simp [ExecSvc.cancelExecutionEntry, hp]
  · intro bid be hbe
    have hmem : bid ∈ ExecSvc.mapKeys e.branches :=
      ExecSvc.mem_keys_of_mapGet_isSome bid e.branches (by simp [hbe])
    obtain ⟨be2, hbe2, hcanc, _, hkeep⟩ := hbr bid be hbe
    refine ⟨be2, ?_, ?_, hkeep⟩
    · simpa [ExecSvc.cancelExecutionEntry] using hbe2
    · intro hrun
      rw [hcanc hrun hmem]
      simp [ExecSvc.canceledEntryCopy, ExecSvc.canceledCopy]

/-- Witness for C3 (amended) at the concrete one-running-branch state. -/
theorem C3_amended_cancellation_cascade_witness :
    ExecSvc.mapGet "e1" (ExecSvc.sampleState ExecSvc.BranchStatus.running).active
        = some (ExecSvc.sampleEntry ExecSvc.BranchStatus.running) ∧
    (ExecSvc.cancelExecution (ExecSvc.sampleState ExecSvc.BranchStatus.running)
        "e1" 5).2 = true ∧
    ∃ e2, ExecSvc.mapGet "e1"
        ((ExecSvc.cancelExecution (ExecSvc.sampleState ExecSvc.BranchStatus.running)
          "e1" 5).1).active = some e2 ∧
      e2.record.status = ExecSvc.ExecutionStatus.canceled ∧
      e2.record.finishedAt = some 5 ∧
      e2.progress.status = ExecSvc.ExecutionStatus.canceled ∧
      e2.progress.activeBranches
          = (ExecSvc.sampleEntry ExecSvc.BranchStatus.running).progress.activeBranches ∧
      e2.progress.completedBranches
          = (ExecSvc.sampleEntry ExecSvc.BranchStatus.running).progress.completedBranches ∧
      e2.progress.failedBranches
          = (ExecSvc.sampleEntry ExecSvc.BranchStatus.running).progress.failedBranches ∧
      ∀ bid be, ExecSvc.mapGet bid
          (ExecSvc.sampleEntry ExecSvc.BranchStatus.running).branches = some be →
        ∃ be2, ExecSvc.mapGet bid e2.branches = some be2 ∧
          (be.branch.status = ExecSvc.BranchStatus.running →
            be2.branch.status = ExecSvc.BranchStatus.canceled) ∧
          (be.branch.status ≠ ExecSvc.BranchStatus.running → be2 = be) :=
  ⟨by decide,
    (C3_amended_cancellation_cascade (ExecSvc.sampleState ExecSvc.BranchStatus.running)
      "e1" 5 (ExecSvc.sampleEntry ExecSvc.BranchStatus.running) (by decide)).1,
    (C3_amended_cancellation_cascade (ExecSvc.sampleState ExecSvc.BranchStatus.running)
      "e1" 5 (ExecSvc.sampleEntry ExecSvc.BranchStatus.running) (by decide)).2⟩

namespace ExecSvc
theorem updateBranchSwallow_active (s : ServiceState) (b : ExecutionBranch) :
    (updateBranchSwallow s b).active = s.active := by
  unfold updateBranchSwallow
  cases s.storage.updateBranch b <;> rfl

theorem handle_create_entry (s : ServiceState) (ev : StreamEvent) (now : Nat)
    (e : ExecEntry) (he : mapGet ev.executionId s.active = some e)
    (ht : ev.type = "branch:create") :
    ∃ e2, mapGet ev.executionId (handleBranchEvent s ev now).active = some e2 ∧
      e2.record = e.record ∧
      e2.progress.status = e.progress.status ∧
      e2.progress.activeBranches = e.progress.activeBranches + 1 ∧
      e2.progress.completedBranches = e.progress.completedBranches ∧
      e2.progress.failedBranches = e.progress.failedBranches ∧
      (∀ q, q ∈ mapKeys e2.branches ↔ q ∈ mapKeys e.branches ∨ q = ev.branchId) := by
  simp only [handleBranchEvent, he, ht, ne_eq, not_true_eq_false, and_false, if_false,
    if_true, createBranch, emitBranchEvent, mapGet_mapSet_self, mapSet_mapSet_self]
  exact ⟨_, rfl, rfl, rfl, rfl, rfl, rfl,
    fun q => mem_mapKeys_mapSet ev.branchId q _ e.branches⟩

theorem handle_untracked_noop (s : ServiceState) (ev : StreamEvent) (now : Nat)
    (e : ExecEntry) (he : mapGet ev.executionId s.active = some e)
    (hb : mapGet ev.branchId e.branches = none) (ht : ev.type ≠ "branch:create") :
    handleBranchEvent s ev now = s := by
  simp [handleBranchEvent, he, hb, ht]

theorem handle_start_entry (s : ServiceState) (ev : StreamEvent) (now : Nat)
    (e : ExecEntry) (be : BranchEntry)
    (he : mapGet ev.executionId s.active = some e)
    (hb : mapGet ev.branchId e.branches = some be)
    (ht : ev.type = "branch:start") :
    ∃ e2, mapGet ev.executionId (handleBranchEvent s ev now).active = some e2 ∧
      e2.record = e.record ∧
      e2.progress = e.progress ∧
      mapKeys e2.branches = mapKeys e.branches := by
  have hmem : ev.branchId ∈ mapKeys e.branches :=
    mem_keys_of_mapGet_isSome _ _ (by simp [hb])
  simp [handleBranchEvent, he, hb, ht, setBranchEntry, updateBranchSwallow_active,
    emitBranchEvent, mapGet_mapSet_self, mapSet_mapSet_self]
  exact mapKeys_mapSet_of_mem _ _ _ hmem

theorem handle_complete_entry (s : ServiceState) (ev : StreamEvent) (now : Nat)
    (e : ExecEntry) (be : BranchEntry)
    (he : mapGet ev.executionId s.active = some e)
    (hb : mapGet ev.branchId e.branches = some be)
    (ht : ev.type = "branch:complete") :
    ∃ e2, mapGet ev.executionId (handleBranchEvent s ev now).active = some e2 ∧
      e2.progress.status = e.progress.status ∧
      e2.progress.activeBranches = e.progress.activeBranches - 1 ∧
      e2.progress.completedBranches = e.progress.completedBranches + 1 ∧
      e2.progress.failedBranches = e.progress.failedBranches ∧
      mapKeys e2.branches = mapKeys e.branches := by
  have hmem : ev.branchId ∈ mapKeys e.branches :=
    mem_keys_of_mapGet_isSome _ _ (by simp [hb])
  simp [handleBranchEvent, he, hb, ht, setBranchEntry, updateBranchSwallow_active,
    updateExecutionSwallow_active, emitBranchEvent, mapGet_mapSet_self,
    mapSet_mapSet_self]
  exact mapKeys_mapSet_of_mem _ _ _ hmem

theorem handle_failed_entry (s : ServiceState) (ev : StreamEvent) (now : Nat)
    (e : ExecEntry) (be : BranchEntry)
    (he : mapGet ev.executionId s.active = some e)
    (hb : mapGet ev.branchId e.branches = some be)
    (ht : ev.type = "branch:failed") :
    ∃ e2, mapGet ev.executionId (handleBranchEvent s ev now).active = some e2 ∧
      e2.record = e.record ∧
      e2.progress.status = e.progress.status ∧
      e2.progress.activeBranches = e.progress.activeBranches - 1 ∧
      e2.progress.completedBranches = e.progress.completedBranches ∧
      e2.progress.failedBranches = e.progress.failedBranches + 1 ∧
      mapKeys e2.branches = mapKeys e.branches := by
  have hmem : ev.branchId ∈ mapKeys e.branches :=
    mem_keys_of_mapGet_isSome _ _ (by simp [hb])
  simp [handleBranchEvent, he, hb, ht, setBranchEntry, updateBranchSwallow_active,
    emitBranchEvent, mapGet_mapSet_self, mapSet_mapSet_self]
  exact mapKeys_mapSet_of_mem _ _ _ hmem

theorem nodup_created_le_countCreates (D : List String) :
    ∀ (p : List StreamEvent), D.Nodup →
      (∀ d ∈ D, ∃ ev ∈ p, isCreateEvent ev = true ∧ ev.branchId = d) →
      D.length ≤ countCreates p := by
  induction D with
  | nil =>
    intro p _ _
    simp
  | cons d D ih =>
    intro p hnd hd
    obtain ⟨ev, hevp, hevc, hevb⟩ := hd d (List.mem_cons_self d D)
    obtain ⟨p1, p2, rfl⟩ := List.append_of_mem hevp
    have hdD : d ∉ D := (List.nodup_cons.mp hnd).1
    have hd2 : ∀ x ∈ D, ∃ ev2 ∈ p1 ++ p2, isCreateEvent ev2 = true ∧ ev2.branchId = x := by
      intro x hx
      obtain ⟨ev2, hev2, hc2, hb2⟩ := hd x (List.mem_cons_of_mem d hx)
      have hne : ev2 ≠ ev := by
        intro h
        subst h
        rw [hb2] at hevb
        exact hdD (hevb ▸ hx)
      refine ⟨ev2, ?_, hc2, hb2⟩
      rcases List.mem_append.mp hev2 with h | h
      · exact List.mem_append_left _ h
      · rcases List.mem_cons.mp h with h | h
        · exact absurd h hne
        · exact List.mem_append_right _ h
    have hih := ih (p1 ++ p2) (List.nodup_cons.mp hnd).2 hd2
    have hcc : countCreates (p1 ++ ev :: p2)
        = countCreates (p1 ++ p2) + 1 := by
      simp [countCreates, List.countP_append, List.countP_cons, hevc]
      omega
    simp only [List.length_cons, hcc]
    omega

theorem counters_invariant
    (eid : String) (now : Nat) (s0 : ServiceState) (e0 : ExecEntry)
    (he : mapGet eid s0.active = some e0)
    (hbr : e0.branches = ([] : List (String × BranchEntry)))
    (hact : e0.progress.activeBranches = 0)
    (hcomp : e0.progress.completedBranches = 0)
    (hfail : e0.progress.failedBranches = 0)
    (evs : List StreamEvent)
    (hall : ∀ ev ∈ evs, ev.executionId = eid)
    (htypes : ∀ ev ∈ evs, IsLifecycleType ev)
    (hone : AtMostOneTerminalEach evs) :
    ∀ n, ∃ e D,
      mapGet eid (runEvents s0 (evs.take n) now).active = some e ∧
      List.Nodup D ∧
      (∀ d ∈ D, (∃ ev ∈ evs.take n, isCreateEvent ev = true ∧ ev.branchId = d) ∧
        1 ≤ terminalCountFor d (evs.take n)) ∧
      (∀ q ∈ mapKeys e.branches,
        ∃ ev ∈ evs.take n, isCreateEvent ev = true ∧ ev.branchId = q) ∧
      e.progress.activeBranches = (countCreates (evs.take n) : Int) - D.length ∧
      e.progress.completedBranches + e.progress.failedBranches = (D.length : Int) := by
  intro n
  induction n with
  | zero =>
    refine ⟨e0, [], by simpa [runEvents] using he, List.nodup_nil, by simp, ?_, ?_, ?_⟩
    · simp [hbr, mapKeys]
    · simp [hact, countCreates]
    · simp [hcomp, hfail]
  | succ n ih =>
    by_cases hlen : n < evs.length
    · have hev : evs.take (n + 1) = evs.take n ++ [evs[n]] := by
        rw [List.take_succ]
        simp [List.getElem?_eq_getElem hlen]
      obtain ⟨e, D, hmem, hnd, hD, hkeys, hA, hCF⟩ := ih
      have hevin : evs[n] ∈ evs := List.getElem_mem hlen
      have hexec : evs[n].executionId = eid := hall _ hevin
      have hrun : runEvents s0 (evs.take (n + 1)) now
          = handleBranchEvent (runEvents s0 (evs.take n) now) evs[n] now := by
        rw [runEvents, runEvents, hev, List.foldl_append, List.foldl_cons, List.foldl_nil]
      have hmem2 : mapGet evs[n].executionId (runEvents s0 (evs.take n) now).active
          = some e := by rw [hexec]; exact hmem
      -- monotone transports of the prefix-indexed facts
      have hDmono : ∀ d ∈ D,
          (∃ ev ∈ evs.take (n + 1), isCreateEvent ev = true ∧ ev.branchId = d) ∧
          1 ≤ terminalCountFor d (evs.take (n + 1)) := by
        intro d hd
        obtain ⟨⟨ev0, h0, h1, h2⟩, h3⟩ := hD d hd
        refine ⟨⟨ev0, ?_, h1, h2⟩, ?_⟩
        · rw [hev]; exact List.mem_append_left _ h0
        · rw [hev]
          simp only [terminalCountFor, List.countP_append] at h3 ⊢
          omega
      have hkeysmono : ∀ q, (∃ ev ∈ evs.take n, isCreateEvent ev = true ∧ ev.branchId = q) →
          (∃ ev ∈ evs.take (n + 1), isCreateEvent ev = true ∧ ev.branchId = q) := by
        intro q ⟨ev0, h0, h1, h2⟩
        exact ⟨ev0, by rw [hev]; exact List.mem_append_left _ h0, h1, h2⟩
      rcases htypes evs[n] hevin with htc | hts | htcm | htf
      · -- branch:create
        obtain ⟨e2, hm2, _, _, hA2, hC2, hF2, hK2⟩ :=
          handle_create_entry (runEvents s0 (evs.take n) now) evs[n] now e hmem2 htc
        have hcc : countCreates (evs.take (n + 1)) = countCreates (evs.take n) + 1 := by
          rw [hev]
          simp only [countCreates, List.countP_append, List.countP_cons, List.countP_nil]
          simp [isCreateEvent, htc]
        refine ⟨e2, D, by rw [hrun, ← hexec]; exact hm2, hnd, hDmono, ?_, ?_, ?_⟩
        · intro q hq
          rcases (hK2 q).mp hq with h | h
          · exact hkeysmono q (hkeys q h)
          · refine ⟨evs[n], ?_, ?_, h.symm⟩
            · rw [hev]; exact List.mem_append_right _ (List.mem_singleton_self _)
            · simp [isCreateEvent, htc]
        · rw [hA2, hA, hcc]
          push_cast
          ring
        · rw [hC2, hF2, hCF]
      · -- branch:start
        cases hbq : mapGet evs[n].branchId e.branches with
        | none =>
          have hnoop := handle_untracked_noop (runEvents s0 (evs.take n) now) evs[n] now
            e hmem2 hbq (by simp [hts])
          have hcc : countCreates (evs.take (n + 1)) = countCreates (evs.take n) := by
            rw [hev]
            simp only [countCreates, List.countP_append, List.countP_cons, List.countP_nil]
            simp [isCreateEvent, hts]
          refine ⟨e, D, by rw [hrun, hnoop]; exact hmem, hnd, hDmono, ?_, ?_, ?_⟩
          · intro q hq
            exact hkeysmono q (hkeys q hq)
          · rw [hA, hcc]
          · exact hCF
        | some be =>
          obtain ⟨e2, hm2, _, hp2, hK2⟩ :=
            handle_start_entry (runEvents s0 (evs.take n) now) evs[n] now e be hmem2 hbq hts
          have hcc : countCreates (evs.take (n + 1)) = countCreates (evs.take n) := by
            rw [hev]
            simp only [countCreates, List.countP_append, List.countP_cons, List.countP_nil]
            simp [isCreateEvent, hts]
          refine ⟨e2, D, by rw [hrun, ← hexec]; exact hm2, hnd, hDmono, ?_, ?_, ?_⟩
          · intro q hq
            rw [hK2] at hq
            exact hkeysmono q (hkeys q hq)
          · rw [hp2, hA, hcc]
          · rw [hp2]; exact hCF
      · -- branch:complete
        cases hbq : mapGet evs[n].branchId e.branches with
        | none =>
          have hnoop := handle_untracked_noop (runEvents s0 (evs.take n) now) evs[n] now
            e hmem2 hbq (by simp [htcm])
          have hcc : countCreates (evs.take (n + 1)) = countCreates (evs.take n) := by
            rw [hev]
            simp only [countCreates, List.countP_append, List.countP_cons, List.countP_nil]
            simp [isCreateEvent, htcm]
          refine ⟨e, D, by rw [hrun, hnoop]; exact hmem, hnd, hDmono, ?_, ?_, ?_⟩
          · intro q hq
            exact hkeysmono q (hkeys q hq)
          · rw [hA, hcc]
          · exact hCF
        | some be =>
          obtain ⟨e2, hm2, _, hA2, hC2, hF2, hK2⟩ :=
            handle_complete_entry (runEvents s0 (evs.take n) now) evs[n] now e be hmem2 hbq htcm
          have hterm : isTerminalEvent evs[n] = true := by
            simp [isTerminalEvent, htcm]
          have hbidD : evs[n].branchId ∉ D := by
            intro hmemD
            have h3 := (hD _ hmemD).2
            have hone2 := hone evs[n] hevin hterm
            have hsplit : terminalCountFor evs[n].branchId evs
                = terminalCountFor evs[n].branchId (evs.take n)
                  + terminalCountFor evs[n].branchId (evs.drop n) := by
              rw [terminalCountFor, terminalCountFor, terminalCountFor,
                ← List.countP_append, List.take_append_drop]
            have hdrop : evs.drop n = evs[n] :: evs.drop (n + 1) :=
              List.drop_eq_getElem_cons hlen
            have hpos : 1 ≤ terminalCountFor evs[n].branchId (evs.drop n) := by
              rw [hdrop]
              simp only [terminalCountFor, List.countP_cons]
              have hx : (isTerminalEvent evs[n] && (evs[n].branchId == evs[n].branchId))
                  = true := by simp [hterm]
              rw [hx]
              simp only [reduceIte]
              omega
            omega
          have hcc : countCreates (evs.take (n + 1)) = countCreates (evs.take n) := by
            rw [hev]
            simp only [countCreates, List.countP_append, List.countP_cons, List.countP_nil]
            simp [isCreateEvent, htcm]
          have hcreated : ∃ ev0 ∈ evs.take (n + 1),
              isCreateEvent ev0 = true ∧ ev0.branchId = evs[n].branchId := by
            apply hkeysmono
            apply hkeys
            exact mem_keys_of_mapGet_isSome _ _ (by simp [hbq])
          have hterma : 1 ≤ terminalCountFor evs[n].branchId (evs.take (n + 1)) := by
            rw [hev]
            simp only [terminalCountFor, List.countP_append, List.countP_cons, List.countP_nil]
            simp [hterm]
          refine ⟨e2, evs[n].branchId :: D,
            by rw [hrun, ← hexec]; exact hm2,
            List.nodup_cons.mpr ⟨hbidD, hnd⟩, ?_, ?_, ?_, ?_⟩
          · intro d hd
            rcases List.mem_cons.mp hd with rfl | hd
            · exact ⟨hcreated, hterma⟩
            · exact hDmono d hd
          · intro q hq
            rw [hK2] at hq
            exact hkeysmono q (hkeys q hq)
          · rw [hA2, hA, hcc]
            simp only [List.length_cons]
            push_cast
            ring
          · rw [hC2, hF2]
            simp only [List.length_cons]
            push_cast
            omega
      · -- branch:failed
        cases hbq : mapGet evs[n].branchId e.branches with
        | none =>
          have hnoop := handle_untracked_noop (runEvents s0 (evs.take n) now) evs[n] now
            e hmem2 hbq (by simp [htf])
          have hcc : countCreates (evs.take (n + 1)) = countCreates (evs.take n) := by
            rw [hev]
            simp only [countCreates, List.countP_append, List.countP_cons, List.countP_nil]
            simp [isCreateEvent, htf]
          refine ⟨e, D, by rw [hrun, hnoop]; exact hmem, hnd, hDmono, ?_, ?_, ?_⟩
          · intro q hq
            exact hkeysmono q (hkeys q hq)
          · rw [hA, hcc]
          · exact hCF
        | some be =>
          obtain ⟨e2, hm2, _, _, hA2, hC2, hF2, hK2⟩ :=
            handle_failed_entry (runEvents s0 (evs.take n) now) evs[n] now e be hmem2 hbq htf
          have hterm : isTerminalEvent evs[n] = true := by
            simp [isTerminalEvent, htf]
          have hbidD : evs[n].branchId ∉ D := by
            intro hmemD
            have h3 := (hD _ hmemD).2
            have hone2 := hone evs[n] hevin hterm
            have hsplit : terminalCountFor evs[n].branchId evs
                = terminalCountFor evs[n].branchId (evs.take n)
                  + terminalCountFor evs[n].branchId (evs.drop n) := by
              rw [terminalCountFor, terminalCountFor, terminalCountFor,
                ← List.countP_append, List.take_append_drop]
            have hdrop : evs.drop n = evs[n] :: evs.drop (n + 1) :=
              List.drop_eq_getElem_cons hlen
            have hpos : 1 ≤ terminalCountFor evs[n].branchId (evs.drop n) := by
              rw [hdrop]
              simp only [terminalCountFor, List.countP_cons]
              have hx : (isTerminalEvent evs[n] && (evs[n].branchId == evs[n].branchId))
                  = true := by simp [hterm]
              rw [hx]
              simp only [reduceIte]
              omega
            omega
          have hcc : countCreates (evs.take (n + 1)) = countCreates (evs.take n) := by
            rw [hev]
            simp only [countCreates, List.countP_append, List.countP_cons, List.countP_nil]
            simp [isCreateEvent, htf]
          have hcreated : ∃ ev0 ∈ evs.take (n + 1),
              isCreateEvent ev0 = true ∧ ev0.branchId = evs[n].branchId := by
            apply hkeysmono
            apply hkeys
            exact mem_keys_of_mapGet_isSome _ _ (by simp [hbq])
          have hterma : 1 ≤ terminalCountFor evs[n].branchId (evs.take (n + 1)) := by
            rw [hev]
            simp only [terminalCountFor, List.countP_append, List.countP_cons, List.countP_nil]
            simp [hterm]
          refine ⟨e2, evs[n].branchId :: D,
            by rw [hrun, ← hexec]; exact hm2,
            List.nodup_cons.mpr ⟨hbidD, hnd⟩, ?_, ?_, ?_, ?_⟩
          · intro d hd
            rcases List.mem_cons.mp hd with rfl | hd
            · exact ⟨hcreated, hterma⟩
            · exact hDmono d hd
          · intro q hq
            rw [hK2] at hq
            exact hkeysmono q (hkeys q hq)
          · rw [hA2, hA, hcc]
            simp only [List.length_cons]
            push_cast
            ring
          · rw [hC2, hF2]
            simp only [List.length_cons]
            push_cast
            omega
    · have h1 : evs.take (n + 1) = evs.take n := by
        rw [List.take_of_length_le (by omega), List.take_of_length_le (by omega)]
      rw [h1]
      exact ih

end ExecSvc

/-- C4 counterexample: starting from a freshly registered execution with
zero counters, the handled sequence [branch:create b1, branch:complete b1,
branch:complete b1] drives `activeBranches` to -1 (the claim requires it to
stay nonnegative) and `completedBranches + failedBranches` to 2 although
only one branch was created, because `handleBranchEvent` applies terminal
counter updates without any terminal-status guard. -/
theorem C4_counterexample_duplicate_terminal :
    Option.map (fun e => e.progress.activeBranches)
        (ExecSvc.mapGet "e1"
          (ExecSvc.runEvents ExecSvc.freshState ExecSvc.dupCompleteEvents 7).active)
      = some (-1) ∧
    Option.map (fun e => e.progress.completedBranches + e.progress.failedBranches)
        (ExecSvc.mapGet "e1"
          (ExecSvc.runEvents ExecSvc.freshState ExecSvc.dupCompleteEvents 7).active)
      = some 2 ∧
    ExecSvc.countCreates ExecSvc.dupCompleteEvents = 1 := by
  refine ⟨by decide, by decide, by decide⟩

/-- C4 (amended): for any sequence of branch lifecycle events (creation,
start, complete, failed) handled for an active execution that starts with
an empty branch table and zeroed counters, PROVIDED each branch id receives
at most one terminal event in the sequence, the aggregate counters satisfy
`activeBranches >= 0` and `completedBranches + failedBranches <= number of
branch creations handled` after every prefix of the sequence.  (Without the
at-most-one-terminal proviso the code violates both bounds, see the
counterexample.) -/
theorem C4_amended_counter_bounds
    (eid : String) (now : Nat) (s0 : ExecSvc.ServiceState) (e0 : ExecSvc.ExecEntry)
    (he : ExecSvc.mapGet eid s0.active = some e0)
    (hbr : e0.branches = ([] : List (String × ExecSvc.BranchEntry)))
    (hact : e0.progress.activeBranches = 0)
    (hcomp : e0.progress.completedBranches = 0)
    (hfail : e0.progress.failedBranches = 0)
    (evs : List ExecSvc.StreamEvent)
    (hall : ∀ ev ∈ evs, ev.executionId = eid)
    (htypes : ∀ ev ∈ evs, ExecSvc.IsLifecycleType ev)
    (hone : ExecSvc.AtMostOneTerminalEach evs) :
    ∀ n, ∃ e,
      ExecSvc.mapGet eid (ExecSvc.runEvents s0 (evs.take n) now).active = some e ∧
      0 ≤ e.progress.activeBranches ∧
      e.progress.completedBranches + e.progress.failedBranches
        ≤ (ExecSvc.countCreates (evs.take n) : Int) := by
  intro n
  obtain ⟨e, D, hm, hnd, hD, hkeys, hA, hCF⟩ :=
    ExecSvc.counters_invariant eid now s0 e0 he hbr hact hcomp hfail evs
      hall htypes hone n
  have hcount : D.length ≤ ExecSvc.countCreates (evs.take n) :=
    ExecSvc.nodup_created_le_countCreates D (evs.take n) hnd (fun d hd => (hD d hd).1)
  refine ⟨e, hm, ?_, ?_⟩ <;> omega

/-- Witness for C4 (amended) on a concrete well-behaved sequence. -/
theorem C4_amended_counter_bounds_witness :
    ExecSvc.AtMostOneTerminalEach ExecSvc.goodEvents ∧
    ∃ e, ExecSvc.mapGet "e1"
        (ExecSvc.runEvents ExecSvc.freshState (ExecSvc.goodEvents.take 3) 7).active
        = some e ∧
      0 ≤ e.progress.activeBranches ∧
      e.progress.completedBranches + e.progress.failedBranches
        ≤ (ExecSvc.countCreates (ExecSvc.goodEvents.take 3) : Int) :=
  ⟨by decide,
    C4_amended_counter_bounds "e1" 7 ExecSvc.freshState ExecSvc.freshEntry
      (by decide) rfl rfl rfl rfl ExecSvc.goodEvents
      (by decide) (by decide) (by decide) 3⟩

namespace Compiler

theorem dfsLe_refl (s : DfsState) : DfsLe s s :=
  ⟨⟨[], rfl⟩, ⟨[], rfl, by simp⟩⟩

theorem dfsLe_trans {s1 s2 s3 : DfsState} (h1 : DfsLe s1 s2) (h2 : DfsLe s2 s3) :
    DfsLe s1 s3 := by
  obtain ⟨⟨u1, hu1⟩, ⟨t1, ht1, hw1⟩⟩ := h1
  obtain ⟨⟨u2, hu2⟩, ⟨t2, ht2, hw2⟩⟩ := h2
  refine ⟨⟨u2 ++ u1, by rw [hu2, hu1, List.append_assoc]⟩,
    ⟨t2 ++ t1, by rw [ht2, ht1, List.append_assoc], ?_⟩⟩
  intro x hx
  rcases List.mem_append.mp hx with hx | hx
  · intro hxv
    exact hw2 x hx (by rw [hu1]; exact List.mem_append_right _ hxv)
  · exact hw1 x hx

theorem dfsLe_visited_mem {s1 s2 : DfsState} (h : DfsLe s1 s2) {x : String}
    (hx : x ∈ s1.visited) : x ∈ s2.visited := by
  obtain ⟨⟨u, hu⟩, -⟩ := h
  rw [hu]
  exact List.mem_append_right _ hx

theorem foldl_dfsLe (w : Workflow) (f : Nat)
    (hstep : ∀ s n, DfsLe s (visit w f s n)) :
    ∀ (l : List String) (s : DfsState), DfsLe s (l.foldl (visit w f) s) := by
  intro l
  induction l with
  | nil => intro s; exact dfsLe_refl s
  | cons a l ih =>
    intro s
    exact dfsLe_trans (hstep s a) (ih (visit w f s a))

theorem visit_dfsLe (w : Workflow) : ∀ (f : Nat) (s : DfsState) (n : String),
    DfsLe s (visit w f s n) := by
  intro f
  induction f with
  | zero => intro s n; exact dfsLe_refl s
  | succ f ih =>
    intro s n
    by_cases hv : n ∈ s.visited
    · simp only [visit, hv, if_true]
      exact dfsLe_refl s
    · simp only [visit, hv, if_false]
      obtain ⟨⟨u2, hu2⟩, ⟨t2, ht2, hw2⟩⟩ :=
        foldl_dfsLe w f ih (succs w n) ⟨n :: s.visited, s.result⟩
      refine ⟨⟨u2 ++ [n], ?_⟩, ⟨n :: t2, ?_, ?_⟩⟩
      · rw [List.append_assoc]
        exact hu2
      · simp only [List.cons_append]
        rw [ht2]
      · intro x hx
        rcases List.mem_cons.mp hx with rfl | hx
        · exact hv
        · intro hxv
          exact hw2 x hx (List.mem_cons_of_mem n hxv)

theorem visit_mem (w : Workflow) (f : Nat) (s : DfsState) (n : String) (hf : 1 ≤ f) :
    n ∈ (visit w f s n).visited := by
  match f, hf with
  | f + 1, _ =>
    by_cases hv : n ∈ s.visited
    · simp [visit, hv]
    · simp only [visit, hv, if_false]
      exact dfsLe_visited_mem
        (foldl_dfsLe w f (visit_dfsLe w f) (succs w n) ⟨n :: s.visited, s.result⟩)
        (List.mem_cons_self _ _)

theorem foldl_visit_mem (w : Workflow) (f : Nat) (hf : 1 ≤ f) :
    ∀ (l : List String) (s : DfsState) (m : String), m ∈ l →
      m ∈ (l.foldl (visit w f) s).visited := by
  intro l
  induction l with
  | nil =>
    intro s m hm
    cases hm
  | cons a l ih =>
    intro s m hm
    rcases List.mem_cons.mp hm with rfl | hm
    · exact dfsLe_visited_mem
        (foldl_dfsLe w f (visit_dfsLe w f) l (visit w f s m))
        (visit_mem w f s m hf)
    · exact ih (visit w f s a) m hm

theorem foldl_invB (w : Workflow) (f : Nat) (G : List String)
    (hstep : ∀ s n, InvB s G → InvB (visit w f s n) G) :
    ∀ (l : List String) (s : DfsState), InvB s G → InvB (l.foldl (visit w f) s) G := by
  intro l
  induction l with
  | nil => intro s h; exact h
  | cons a l ih =>
    intro s h
    exact ih _ (hstep s a h)

theorem visit_invB (w : Workflow) : ∀ (f : Nat) (s : DfsState) (n : String)
    (G : List String), InvB s G → InvB (visit w f s n) G := by
  intro f
  induction f with
  | zero => intro s n G h; exact h
  | succ f ih =>
    intro s n G h
    by_cases hv : n ∈ s.visited
    · simpa [visit, hv] using h
    · simp only [visit, hv, if_false]
      have h1 : InvB ⟨n :: s.visited, s.result⟩ (n :: G) := by
        refine ⟨fun x hx => List.mem_cons_of_mem n (h.1 x hx), ?_⟩
        intro x hx
        rcases List.mem_cons.mp hx with rfl | hx
        · exact Or.inr (List.mem_cons_self _ _)
        · exact (h.2 x hx).imp id (List.mem_cons_of_mem n)
      have h2 := foldl_invB w f (n :: G) (fun s2 m => ih s2 m (n :: G))
        (succs w n) ⟨n :: s.visited, s.result⟩ h1
      refine ⟨?_, ?_⟩
      · intro x hx
        rcases List.mem_cons.mp hx with heq | hx
        · rw [heq]
          exact dfsLe_visited_mem
            (foldl_dfsLe w f (visit_dfsLe w f) (succs w n) ⟨n :: s.visited, s.result⟩)
            (List.mem_cons_self _ _)
        · exact h2.1 x hx
      · intro x hx
        rcases h2.2 x hx with hr | hg
        · exact Or.inl (List.mem_cons_of_mem n hr)
        · rcases List.mem_cons.mp hg with rfl | hg
          · exact Or.inl (List.mem_cons_self _ _)
          · exact Or.inr hg

theorem determineNodeOrder_eq (w : Workflow) :
    determineNodeOrder w
      = ((w.nodes.map WNode.id).foldl (visit w (dfsFuel w)) ⟨[], []⟩).result := by
  unfold determineNodeOrder
  rw [List.foldl_map]

theorem mem_nodeOrder (w : Workflow) :
    ∀ nid ∈ w.nodes.map WNode.id, nid ∈ determineNodeOrder w := by
  intro nid hnid
  rw [determineNodeOrder_eq]
  have hmem := foldl_visit_mem w (dfsFuel w) (by unfold dfsFuel; omega)
    (w.nodes.map WNode.id) ⟨[], []⟩ nid hnid
  have hinv : InvB ((w.nodes.map WNode.id).foldl (visit w (dfsFuel w)) ⟨[], []⟩) [] :=
    foldl_invB w (dfsFuel w) []
      (fun s m => visit_invB w (dfsFuel w) s m [])
      (w.nodes.map WNode.id) ⟨[], []⟩ ⟨by simp, by simp⟩
  rcases hinv.2 nid hmem with hr | hg
  · exact hr
  · cases hg

end Compiler

namespace Compiler

theorem length_filter_not_mem_mono (l : List String) (v1 v2 : List String)
    (h : ∀ x ∈ v1, x ∈ v2) :
    (l.filter (fun x => x ∉ v2)).length ≤ (l.filter (fun x => x ∉ v1)).length := by
  induction l with
  | nil => simp
  | cons a l ih =>
    have ih2 : (List.filter (fun x => !decide (x ∈ v2)) l).length
        ≤ (List.filter (fun x => !decide (x ∈ v1)) l).length := by
      simpa using ih
    by_cases h2 : a ∈ v2
    · by_cases h1 : a ∈ v1
      · simp [List.filter_cons, h2, h1]
        exact ih2
      · simp [List.filter_cons, h2, h1]
        exact Nat.le_succ_of_le ih2
    · have h1 : a ∉ v1 := fun ha => h2 (h a ha)
      simp [List.filter_cons, h2, h1]
      exact ih2

end Compiler

namespace Compiler

theorem length_filter_not_mem_cons (l : List String) (v : List String) (n : String)
    (hn : n ∈ l) (hv : n ∉ v) :
    (l.filter (fun x => x ∉ n :: v)).length + 1 ≤ (l.filter (fun x => x ∉ v)).length := by
  induction l with
  | nil => cases hn
  | cons a l ih =>
    have hmono : (List.filter (fun x => !decide (x = n) && !decide (x ∈ v)) l).length
        ≤ (List.filter (fun x => !decide (x ∈ v)) l).length := by
      simpa using
        length_filter_not_mem_mono l v (n :: v) (fun x hx => List.mem_cons_of_mem n hx)
    rcases List.mem_cons.mp hn with heq | hn'
    · subst heq
      simp [List.filter_cons, hv]
      exact hmono
    · by_cases han : a = n
      · subst han
        simp [List.filter_cons, hv]
        exact hmono
      · by_cases ha : a ∈ v
        · have ha2 : a ∈ n :: v := List.mem_cons_of_mem n ha
          simp [List.filter_cons, ha, ha2]
          simpa using ih hn'
        · have ha2 : a ∉ n :: v := by
            intro hx
            rcases List.mem_cons.mp hx with h1 | h1
            · exact han h1
            · exact ha h1
          simp [List.filter_cons, ha, ha2, han]
          simpa using ih hn'

theorem unvisitedCount_le_of_visited_mono (w : Workflow) (s1 s2 : DfsState)
    (h : ∀ x ∈ s1.visited, x ∈ s2.visited) :
    unvisitedCount w s2 ≤ unvisitedCount w s1 :=
  length_filter_not_mem_mono (univ w) s1.visited s2.visited h

end Compiler

namespace Compiler

theorem foldl_visitTopo (w : Workflow) (f : Nat) (G : List String)
    (hstep : ∀ s n, unvisitedCount w s + 1 ≤ f → n ∈ univ w → InvT w s G →
      (∀ g ∈ G, Relation.ReflTransGen (Edge w) g n) → InvT w (visit w f s n) G) :
    ∀ (l : List String) (s : DfsState),
      unvisitedCount w s + 1 ≤ f →
      (∀ m ∈ l, m ∈ univ w) →
      InvT w s G →
      (∀ g ∈ G, ∀ m ∈ l, Relation.ReflTransGen (Edge w) g m) →
      InvT w (l.foldl (visit w f) s) G := by
  intro l
  induction l with
  | nil =>
    intro s _ _ h _
    exact h
  | cons a l ih =>
    intro s hf hl hInv hgray
    have h1 : InvT w (visit w f s a) G :=
      hstep s a hf (hl a (List.mem_cons_self _ _)) hInv
        (fun g hg => hgray g hg a (List.mem_cons_self _ _))
    have hmono : unvisitedCount w (visit w f s a) ≤ unvisitedCount w s :=
      unvisitedCount_le_of_visited_mono w s (visit w f s a)
        (fun x hx => dfsLe_visited_mem (visit_dfsLe w f s a) hx)
    exact ih (visit w f s a) (by omega)
      (fun m hm => hl m (List.mem_cons_of_mem a hm)) h1
      (fun g hg m hm => hgray g hg m (List.mem_cons_of_mem a hm))

theorem visit_topo (w : Workflow) (hacyc : Acyclic w) :
    ∀ (f : Nat) (s : DfsState) (n : String) (G : List String),
      unvisitedCount w s + 1 ≤ f →
      n ∈ univ w →
      InvT w s G →
      (∀ g ∈ G, Relation.ReflTransGen (Edge w) g n) →
      InvT w (visit w f s n) G := by
  intro f
  induction f with
  | zero =>
    intro s n G hf
    exact absurd hf (by omega)
  | succ f ih =>
    intro s n G hf hn hInv hgray
    by_cases hv : n ∈ s.visited
    · simp only [visit, hv, if_true]
      exact hInv
    · simp only [visit, hv, if_false]
      have hInv1 : InvT w ⟨n :: s.visited, s.result⟩ (n :: G) := by
        obtain ⟨h1, h2, h3, h4, h5⟩ := hInv
        refine ⟨fun x hx => List.mem_cons_of_mem n (h1 x hx), ?_, h3, h4, h5⟩
        intro x hx
        rcases List.mem_cons.mp hx with heq | hx
        · exact Or.inr (heq ▸ List.mem_cons_self _ _)
        · exact (h2 x hx).imp id (List.mem_cons_of_mem n)
      have hcount : unvisitedCount w ⟨n :: s.visited, s.result⟩ + 1 ≤ f := by
        have hd := length_filter_not_mem_cons (univ w) s.visited n hn hv
        simp only [unvisitedCount] at hf ⊢
        omega
      have hsub : ∀ m ∈ succs w n, m ∈ univ w := by
        intro m hm
        unfold succs at hm
        rcases List.mem_map.mp hm with ⟨c, hc, rfl⟩
        exact List.mem_append_right _
          (List.mem_map.mpr ⟨c, (List.mem_filter.mp hc).1, rfl⟩)
      have hgray1 : ∀ g ∈ n :: G, ∀ m ∈ succs w n,
          Relation.ReflTransGen (Edge w) g m := by
        intro g hg m hm
        have hedge : Edge w n m := hm
        rcases List.mem_cons.mp hg with heq | hg
        · exact heq ▸ Relation.ReflTransGen.single hedge
        · exact (hgray g hg).tail hedge
      have h2 := foldl_visitTopo w f (n :: G)
        (fun s' n' => ih s' n' (n :: G)) (succs w n)
        ⟨n :: s.visited, s.result⟩ hcount hsub hInv1 hgray1
      obtain ⟨⟨u2, hu2⟩, ⟨t2, ht2, hw2⟩⟩ :=
        foldl_dfsLe w f (visit_dfsLe w f) (succs w n) ⟨n :: s.visited, s.result⟩
      set F : DfsState :=
        (succs w n).foldl (visit w f) ⟨n :: s.visited, s.result⟩ with hF
      have hnres : n ∉ F.result := by
        rw [ht2]
        intro hmem
        rcases List.mem_append.mp hmem with h | h
        · exact hw2 n h (List.mem_cons_self _ _)
        · exact hv (hInv.1 n h)
      have hsuccres : ∀ m ∈ succs w n, m ∈ F.result := by
        intro m hm
        have hmv : m ∈ F.visited :=
          foldl_visit_mem w f (by omega) (succs w n) ⟨n :: s.visited, s.result⟩ m hm
        have hedge : Edge w n m := hm
        rcases h2.2.1 m hmv with hr | hg2
        · exact hr
        · rcases List.mem_cons.mp hg2 with heq | hgG
          · exact absurd (Relation.TransGen.single (heq ▸ hedge)) (hacyc n)
          · exact absurd (Relation.TransGen.head' hedge (hgray m hgG)) (hacyc n)
      obtain ⟨g1, g2, g3, g4, g5⟩ := h2
      refine ⟨?_, ?_, ?_, ?_, ?_⟩
      · intro x hx
        rcases List.mem_cons.mp hx with heq | hx
        · rw [heq, hu2]
          exact List.mem_append_right _ (List.mem_cons_self _ _)
        · exact g1 x hx
      · intro x hx
        rcases g2 x hx with hr | hg'
        · exact Or.inl (List.mem_cons_of_mem n hr)
        · rcases List.mem_cons.mp hg' with heq | hgG
          · exact Or.inl (heq ▸ List.mem_cons_self _ _)
          · exact Or.inr hgG
      · intro y hy b hb
        rcases List.mem_cons.mp hy with heq | hy
        · exact List.mem_cons_of_mem n (hsuccres b (heq ▸ hb))
        · exact List.mem_cons_of_mem n (g3 y hy b hb)
      · refine List.Pairwise.cons ?_ g4
        intro y hy hedge
        exact hnres (g3 y hy n hedge)
      · exact List.nodup_cons.mpr ⟨hnres, g5⟩

end Compiler

namespace Compiler

theorem determineNodeOrder_invT (w : Workflow) (hacyc : Acyclic w) :
    InvT w ((w.nodes.map WNode.id).foldl (visit w (dfsFuel w)) ⟨[], []⟩) [] := by
  have hcount : unvisitedCount w ⟨[], []⟩ + 1 ≤ dfsFuel w := by
    have h1 : unvisitedCount w ⟨[], []⟩ ≤ (univ w).length :=
      List.length_filter_le _ _
    have h2 : (univ w).length = w.nodes.length + w.connections.length := by
      simp [univ]
    simp only [dfsFuel]
    omega
  refine foldl_visitTopo w (dfsFuel w) []
    (fun s n => visit_topo w hacyc (dfsFuel w) s n [])
    (w.nodes.map WNode.id) ⟨[], []⟩ hcount
    (fun m hm => List.mem_append_left _ hm) ?_ (by simp)
  exact ⟨by simp, by simp, by simp, List.Pairwise.nil, List.nodup_nil⟩

theorem pairwise_not_edge_indexOf_lt (w : Workflow) (l : List String)
    (hp : l.Pairwise (fun x y => ¬ Edge w y x)) (a b : String)
    (ha : a ∈ l) (hb : b ∈ l) (hab : Edge w a b) (hne : a ≠ b) :
    l.indexOf a < l.indexOf b := by
  have hia : l.indexOf a < l.length := List.indexOf_lt_length.mpr ha
  have hib : l.indexOf b < l.length := List.indexOf_lt_length.mpr hb
  have hga : l[l.indexOf a] = a := List.getElem_indexOf hia
  have hgb : l[l.indexOf b] = b := List.getElem_indexOf hib
  by_contra hle
  push_neg at hle
  have hne2 : l.indexOf b ≠ l.indexOf a := by
    intro h
    exact hne (((List.indexOf_inj hb ha).mp h).symm)
  have hlt : l.indexOf b < l.indexOf a := lt_of_le_of_ne hle hne2
  have hpe := (List.pairwise_iff_getElem.mp hp) (l.indexOf b) (l.indexOf a) hib hia hlt
  rw [hga, hgb] at hpe
  exact hpe hab

theorem acyclic_of_rank (w : Workflow) (rank : String → Nat)
    (h : ∀ a b, Edge w a b → rank a < rank b) : Acyclic w := by
  have key : ∀ a b, Relation.TransGen (Edge w) a b → rank a < rank b := by
    intro a b hab
    induction hab with
    | single h1 => exact h _ _ h1
    | tail _ h2 ih => exact lt_trans ih (h _ _ h2)
  intro n hn
  exact lt_irrefl _ (key n n hn)

theorem edge_of_mem_connections (w : Workflow) (c : Connection)
    (hc : c ∈ w.connections) : Edge w c.fromId c.toId := by
  unfold Edge succs
  exact List.mem_map.mpr ⟨c, List.mem_filter.mpr ⟨hc, by simp⟩, rfl⟩

end Compiler

open Compiler in
/-- C2: for every well-formed acyclic workflow, the `nodeOrder` produced by
`compile` (via `determineNodeOrder`) contains each declared node id exactly
once, and for every connection `(a → b)` the index of `a` in `nodeOrder` is
strictly less than the index of `b`. -/
theorem C2_topological_order (w : Workflow) (reg : String → Option NodePlugin)
    (hwf : WellFormed w) (hacyc : Acyclic w) :
    (∀ nid ∈ w.nodes.map WNode.id, (compile w reg).nodeOrder.count nid = 1) ∧
    (∀ c ∈ w.connections,
      (compile w reg).nodeOrder.indexOf c.fromId
        < (compile w reg).nodeOrder.indexOf c.toId) := by
  have hInv := determineNodeOrder_invT w hacyc
  have hnd : (determineNodeOrder w).Nodup := by
    rw [determineNodeOrder_eq]
    exact hInv.2.2.2.2
  have hpair : (determineNodeOrder w).Pairwise (fun x y => ¬ Edge w y x) := by
    rw [determineNodeOrder_eq]
    exact hInv.2.2.2.1
  constructor
  · intro nid hnid
    have hmem := mem_nodeOrder w nid hnid
    simp only [compile]
    exact List.count_eq_one_of_mem hnd hmem
  · intro c hc
    have hedge := edge_of_mem_connections w c hc
    obtain ⟨⟨na, hna, hida⟩, ⟨nb, hnb, hidb⟩⟩ := hwf c hc
    have hamem := mem_nodeOrder w c.fromId (List.mem_map.mpr ⟨na, hna, hida⟩)
    have hbmem := mem_nodeOrder w c.toId (List.mem_map.mpr ⟨nb, hnb, hidb⟩)
    have hne : c.fromId ≠ c.toId := by
      intro h
      exact hacyc c.fromId (Relation.TransGen.single (h.symm ▸ hedge))
    simp only [compile]
    exact pairwise_not_edge_indexOf_lt w (determineNodeOrder w) hpair
      c.fromId c.toId hamem hbmem hedge hne

open Compiler in
/-- Witness for C2 on the two-node workflow `wfEx` with its one connection
`a → b`: the hypotheses hold (acyclicity via the rank function `rankEx`) and
the node order lists `a` exactly once and before `b`. -/
theorem C2_topological_order_witness :
    WellFormed wfEx ∧ Acyclic wfEx ∧
    ((determineNodeOrder wfEx).count "a" = 1 ∧
      (determineNodeOrder wfEx).indexOf "a" < (determineNodeOrder wfEx).indexOf "b") := by
  have hwf : WellFormed wfEx := by decide
  have hacyc : Acyclic wfEx := by
    refine acyclic_of_rank wfEx rankEx ?_
    intro a b h
    simp [Edge, succs, wfEx] at h
    obtain ⟨c, ⟨hceq, hfa⟩, htb⟩ := h
    subst hceq
    simp only [] at hfa htb
    rw [← hfa, ← htb]
    decide
  have h := C2_topological_order wfEx (fun _ => none) hwf hacyc
  exact ⟨hwf, hacyc, h.1 "a" (by decide), h.2 ⟨"a", "b"⟩ (by decide)⟩

namespace Compiler

theorem find?_eq_of_nodup (nodes : List WNode)
    (hnd : (nodes.map WNode.id).Nodup) (node : WNode) (hmem : node ∈ nodes) :
    nodes.find? (fun n => n.id = node.id) = some node := by
  induction nodes with
  | nil => cases hmem
  | cons a l ih =>
    rcases List.mem_cons.mp hmem with heq | hmem'
    · rw [heq]
      rw [List.find?_cons_of_pos]
      simp
    · have hnd' : ((a :: l).map WNode.id).Nodup := hnd
      rw [List.map_cons] at hnd'
      have hpieces := List.nodup_cons.mp hnd'
      have hne : ¬ a.id = node.id := by
        intro h
        exact hpieces.1 (h ▸ List.mem_map.mpr ⟨node, hmem', rfl⟩)
      rw [List.find?_cons_of_neg]
      · exact ih hpieces.2 hmem'
      · simp [hne]

theorem buildChain_error (w : Workflow) (reg : String → Option NodePlugin)
    (hnd : (w.nodes.map WNode.id).Nodup) (node : WNode) (hnode : node ∈ w.nodes)
    (hreg : reg node.type = none) :
    ∀ (l : List String), node.id ∈ l → ∀ (chain : List (String × NodePlugin)),
      ∃ e, buildChain w reg l chain = .error e ∧
        ∃ m ∈ w.nodes, m.id = e.nodeId ∧ m.type = e.nodeType ∧ reg m.type = none := by
  intro l
  induction l with
  | nil =>
    intro h
    cases h
  | cons a l ih =>
    intro hmem chain
    by_cases heq : node.id = a
    · subst heq
      have hfind := find?_eq_of_nodup w.nodes hnd node hnode
      simp only [buildChain, hfind, hreg]
      exact ⟨⟨node.id, node.type⟩, rfl, node, hnode, rfl, rfl, hreg⟩
    · have hl : node.id ∈ l := by
        rcases List.mem_cons.mp hmem with h | h
        · exact absurd h heq
        · exact h
      simp only [buildChain]
      cases hfa : w.nodes.find? (fun n => n.id = a) with
      | none =>
        simp only [hfa]
        exact ih hl chain
      | some nd =>
        cases hreg2 : reg nd.type with
        | none =>
          simp only [hfa, hreg2]
          refine ⟨⟨a, nd.type⟩, rfl, nd, List.mem_of_find?_eq_some hfa, ?_, rfl, hreg2⟩
          have hp := List.find?_some hfa
          simpa using hp
        | some p =>
          simp only [hfa, hreg2]
          exact ih hl (chain ++ [(a, p)])

end Compiler

open Compiler in
/-- C6: if a workflow (with distinct declared node ids) contains a node whose
type has no registered plugin, `compile` surfaces a failure whose error names
the id and type of a node with a missing plugin, and executing the compiled
result on any input yields only that error — no node plugin is ever invoked
(the error branch of `runCompiled` ignores every plugin). -/
theorem C6_missing_plugin (w : Workflow) (reg : String → Option NodePlugin)
    (hnd : (w.nodes.map WNode.id).Nodup) (node : WNode) (hnode : node ∈ w.nodes)
    (hreg : reg node.type = none) :
    ∃ e : CompileError,
      (compile w reg).operatorChain = .error e ∧
      (∃ m ∈ w.nodes, m.id = e.nodeId ∧ m.type = e.nodeType ∧ reg m.type = none) ∧
      ∀ input : Int, runCompiled (compile w reg) input = .error e := by
  have hmem : node.id ∈ determineNodeOrder w :=
    mem_nodeOrder w node.id (List.mem_map.mpr ⟨node, hnode, rfl⟩)
  obtain ⟨e, he, hm⟩ :=
    buildChain_error w reg hnd node hnode hreg (determineNodeOrder w) hmem []
  refine ⟨e, he, hm, ?_⟩
  intro input
  simp [runCompiled, compile] at he ⊢
  rw [he]

open Compiler in
/-- Witness for C6 on the one-node workflow `wfMissing` whose node type
`unregistered-type` is absent from an empty registry: compilation yields an
error and running the compiled result on input `0` yields the same error. -/
theorem C6_missing_plugin_witness :
    (wfMissing.nodes.map WNode.id).Nodup ∧
    ∃ e : CompileError,
      (compile wfMissing (fun _ => none)).operatorChain = .error e ∧
      runCompiled (compile wfMissing (fun _ => none)) 0 = .error e := by
  have h := C6_missing_plugin wfMissing (fun _ => none) (by decide)
    ⟨"n1", "unregistered-type"⟩ (by decide) rfl
  obtain ⟨e, he, _, hrun⟩ := h
  exact ⟨by decide, e, he, hrun 0⟩
